import Mathlib

/-!
Verification model of the KAMIS price subsystem of the Meat_A_Eye backend.

The definitions below are shallow embeddings of the Python functions in
`meat_backend/apis.py` (`_fetch_kamis_price_single`, `fetch_kamis_price`,
`fetch_kamis_price_period`), `meat_backend/services/price_service.py`
(`PriceService.fetch_current_price`, `PriceService._get_from_db_cache`) and
`meat_backend/routes/dashboard.py` (`_aggregate_daily_by_week`).

Strings are modelled as `List Char` (`Chars`); calendar dates as a `Ymd`
record.  Python `float` arithmetic on prices is modelled with exact `Rat`
arithmetic: all price sums in scope are far below 2^53, and divisors are the
small list lengths involved, so `int(sum/len)` agrees with truncation of the
exact rational.  `datetime.strptime(_, "%Y-%m-%d")` is modelled after
CPython's `_strptime` regexes (`\d\d\d\d` for the year, `1[0-2]|0[1-9]|[1-9]`
for the month, `3[01]|[12]\d|0[1-9]|[1-9]` for the day, leftover input
rejected, followed by calendar validation); only ASCII digits are modelled.
-/

deriving instance DecidableEq for Except

/-- Strings are modelled as lists of characters. -/
abbrev Chars := List Char

/-- Coerce a Lean string literal to the `Chars` model. -/
def cs (s : String) : Chars := s.data

/-- ASCII decimal digit test (models `str.isdigit` on the inputs in scope). -/
def isDig (c : Char) : Bool := '0' ≤ c && c ≤ '9'

/-- Value of an ASCII digit character. -/
def dv (c : Char) : Nat := c.toNat - '0'.toNat

/-- Digit character for a value below 10. -/
def digitChar (n : Nat) : Char := Char.ofNat ('0'.toNat + n)

/-- All characters are ASCII digits (models `str.isdigit` over a string). -/
def allDigits (l : Chars) : Bool := l.all isDig

/-- ASCII whitespace, for `str.strip` (Unicode whitespace is out of the
modelled domain; the feed fields in scope are ASCII-spaced). -/
def isSpaceCh (c : Char) : Bool := c = ' ' || c = '\t' || c = '\n' || c = '\r'

/-- Models Python `str.strip()`. -/
def strip (l : Chars) : Chars := (l.dropWhile isSpaceCh).reverse.dropWhile isSpaceCh |>.reverse

/-- Models Python `str.split(sep)` for a single-character separator. -/
def splitOn (sep : Char) : Chars → List Chars
  | [] => [[]]
  | c :: rest =>
    if c = sep then [] :: splitOn sep rest
    else
      match splitOn sep rest with
      | [] => [[c]]
      | hd :: t => (c :: hd) :: t

/-- Character membership, models Python `sep in s`. -/
def containsChar (l : Chars) (c : Char) : Bool := l.contains c

/-- Substring containment, models Python `sub in s`. -/
def containsSub : Chars → Chars → Bool
  | _, [] => true
  | [], _ :: _ => false
  | c :: rest, sub => sub.isPrefixOf (c :: rest) || containsSub rest sub

/-- Models Python `str.zfill(2)` on the digit strings in scope (the sign
handling of `zfill` never triggers on them). -/
def zfill2 (l : Chars) : Chars :=
  if l.length ≥ 2 then l else List.replicate (2 - l.length) '0' ++ l

/-- Non-strict character order by code point (Python `str` comparison). -/
def charLe (a b : Char) : Bool := a.toNat ≤ b.toNat

/-- Lexicographic non-strict order on `Chars` (Python string `<=`). -/
def lexLe : Chars → Chars → Bool
  | [], _ => true
  | _ :: _, [] => false
  | a :: as', b :: bs' => if a = b then lexLe as' bs' else charLe a b

/-- A calendar date, modelling Python `datetime.date`. -/
structure Ymd where
  y : Nat
  m : Nat
  d : Nat
deriving DecidableEq, Repr

/-- Gregorian leap-year rule (as used by `datetime.date`). -/
def isLeap (y : Nat) : Bool := (y % 4 = 0 && y % 100 ≠ 0) || y % 400 = 0

/-- Days in a month of a given year. -/
def daysInMonth (y m : Nat) : Nat :=
  if m = 2 then (if isLeap y then 29 else 28)
  else if m = 4 || m = 6 || m = 9 || m = 11 then 30
  else 31

/-- Validity of a date for this development: the dates rendered by
`date.strftime("%Y-%m-%d")` in the code are contemporary, so a 4-digit year
is assumed (Python itself allows years 1..9999). -/
def validYmd (t : Ymd) : Prop :=
  1000 ≤ t.y ∧ t.y ≤ 9999 ∧ 1 ≤ t.m ∧ t.m ≤ 12 ∧ 1 ≤ t.d ∧ t.d ≤ daysInMonth t.y t.m

instance : DecidablePred validYmd := fun t => by unfold validYmd; infer_instance

/-- Cumulative days before month `m` (1-indexed) in a non-leap year. -/
def daysBeforeMonth (m : Nat) : Nat :=
  match m with
  | 1 => 0 | 2 => 31 | 3 => 59 | 4 => 90 | 5 => 120 | 6 => 151
  | 7 => 181 | 8 => 212 | 9 => 243 | 10 => 273 | 11 => 304 | _ => 334

/-- Proleptic-Gregorian day number (rata die: 0001-01-01 ↦ 1, a Monday).
Models `datetime.date.toordinal`; date comparison and `timedelta`
subtraction are performed on this number. -/
def toDayNum (t : Ymd) : Nat :=
  365 * (t.y - 1) + (t.y - 1) / 4 - (t.y - 1) / 100 + (t.y - 1) / 400
    + daysBeforeMonth t.m + (if 3 ≤ t.m && isLeap t.y then 1 else 0) + t.d

/-- `today - timedelta(days=1)` on the calendar representation. -/
def predYmd (t : Ymd) : Ymd :=
  if 1 < t.d then ⟨t.y, t.m, t.d - 1⟩
  else if 1 < t.m then ⟨t.y, t.m - 1, daysInMonth t.y (t.m - 1)⟩
  else ⟨t.y - 1, 12, 31⟩

/-- Order key for Python `date` comparisons restricted to valid dates. -/
def ymdKey (t : Ymd) : Nat := (t.y * 100 + t.m) * 100 + t.d

/-- Two-digit zero-padded decimal rendering (`%m`, `%d`). -/
def pad2 (n : Nat) : Chars := [digitChar (n / 10 % 10), digitChar (n % 10)]

/-- Four-digit zero-padded decimal rendering (`%Y` for 4-digit years). -/
def pad4 (n : Nat) : Chars :=
  [digitChar (n / 1000 % 10), digitChar (n / 100 % 10), digitChar (n / 10 % 10), digitChar (n % 10)]

/-- Models `date.strftime("%Y-%m-%d")` / `str(date)` for 4-digit years. -/
def renderYmd (t : Ymd) : Chars := pad4 t.y ++ '-' :: pad2 t.m ++ '-' :: pad2 t.d

/-- CPython `_strptime` month regex `1[0-2]|0[1-9]|[1-9]`, first-match
semantics with the one-character fallback. -/
def parseMonth : Chars → Option (Nat × Chars)
  | '1' :: c :: rest =>
    if '0' ≤ c && c ≤ '2' then some (10 + dv c, rest) else some (1, c :: rest)
  | '0' :: c :: rest =>
    if '1' ≤ c && c ≤ '9' then some (dv c, rest) else none
  | c :: rest =>
    if '1' ≤ c && c ≤ '9' then some (dv c, rest) else none
  | [] => none

/-- CPython `_strptime` day regex `3[01]|[12]\d|0[1-9]|[1-9]`. -/
def parseDay : Chars → Option (Nat × Chars)
  | '3' :: c :: rest =>
    if c = '0' || c = '1' then some (30 + dv c, rest) else some (3, c :: rest)
  | '0' :: c :: rest =>
    if '1' ≤ c && c ≤ '9' then some (dv c, rest) else none
  | c :: c2 :: rest =>
    if ('1' ≤ c && c ≤ '2') && isDig c2 then some (dv c * 10 + dv c2, rest)
    else if '1' ≤ c && c ≤ '9' then some (dv c, c2 :: rest)
    else none
  | [c] => if '1' ≤ c && c ≤ '9' then some (dv c, []) else none
  | [] => none

/-- Final step of `strptime`: the day match must consume the rest of the
input, and `date()` construction validates the calendar (`year >= 1` and the
day-of-month bound; month and day lower bounds come from the regexes). -/
def finishDay (y m : Nat) (dRes : Option (Nat × Chars)) : Option Ymd :=
  match dRes with
  | some (dd, []) => if 1 ≤ y ∧ dd ≤ daysInMonth y m then some ⟨y, m, dd⟩ else none
  | _ => none

/-- Middle step of `strptime`: after the month a literal `-` is required,
then the day is parsed. -/
def finishMonth (y : Nat) (mRes : Option (Nat × Chars)) : Option Ymd :=
  match mRes with
  | some (m, '-' :: rest2) => finishDay y m (parseDay rest2)
  | _ => none

/-- Models `datetime.strptime(s, "%Y-%m-%d").date()`: the format regex (4
year digits, `-`, month, `-`, day) with no unconverted data allowed, then
`date()` construction which validates the calendar. -/
def parseYmd : Chars → Option Ymd
  | a :: b :: c :: d :: '-' :: rest =>
    if isDig a && isDig b && isDig c && isDig d then
      finishMonth (((dv a * 10 + dv b) * 10 + dv c) * 10 + dv d) (parseMonth rest)
    else none
  | _ => none

/-- Python truthiness of an optional string field (`None` and `""` falsy). -/
def truthyS : Option Chars → Bool
  | none => false
  | some [] => false
  | some (_ :: _) => true

/-- First truthy value of an `or`-chain (`a.get(k1) or a.get(k2) or ...`). -/
def firstTruthy : List (Option Chars) → Option Chars
  | [] => none
  | v :: rest => if truthyS v then v else firstTruthy rest

/-- Decimal-literal model of `float(s)` followed by `int(_)` truncation
toward zero, after `s.replace(",", "")`.  Accepts optional sign, an integer
part and an optional fractional part (one of them nonempty), with
surrounding ASCII whitespace; everything else (exponents, `inf`, `nan`,
underscores) is outside the modelled domain and parses to `none`, and the
binary rounding of `float` never moves these values across an integer for
the magnitudes in scope. -/
def pyFloatTruncInt (l : Chars) : Option Int :=
  let noCommas := l.filter (fun c => c ≠ ',')
  let s := strip noCommas
  let (neg, body) : Bool × Chars :=
    match s with
    | '-' :: rest => (true, rest)
    | '+' :: rest => (false, rest)
    | _ => (false, s)
  let intPart := body.takeWhile isDig
  let afterInt := body.dropWhile isDig
  let fracOk : Bool :=
    match afterInt with
    | [] => decide (intPart ≠ [])
    | '.' :: frac => allDigits frac && decide (intPart ≠ [] ∨ frac ≠ [])
    | _ => false
  if fracOk then
    let n : Nat := intPart.foldl (fun acc c => acc * 10 + dv c) 0
    some (if neg then -(n : Int) else (n : Int))
  else none

/-- `int(a/b)` for an integer sum `a` and positive count `b`: Python's
float division followed by `int(_)` truncation toward zero.  For the
magnitudes in scope the float quotient truncates exactly like the rational
quotient, which for integers is truncated division. -/
def pyTruncDiv (a : Int) (b : Nat) : Int := a.tdiv (b : Int)

/-- Stable insertion relative to a non-strict `le` test: the new element goes
before the first resident that it `le`-precedes... (kept before `y` only when
`le x y`), which together with `foldr` yields Python's stable `sort`. -/
def insertBy (le : α → α → Bool) (x : α) : List α → List α
  | [] => [x]
  | y :: ys => if le x y then x :: y :: ys else y :: insertBy le x ys

/-- Stable insertion sort: models Python `sorted` / `list.sort` with the
comparator `le` as "key of the first ≤ key of the second". -/
def sortBy (le : α → α → Bool) (l : List α) : List α := l.foldr (insertBy le) []

/-- Insert one key/value pair into an association-of-lists, appending to the
entry of an existing key or adding a fresh key at the end: one step of
`collections.defaultdict(list)` population. -/
def insGroup [DecidableEq κ] (k : κ) (v : α) : List (κ × List α) → List (κ × List α)
  | [] => [(k, [v])]
  | (k', vs) :: rest =>
    if k = k' then (k', vs ++ [v]) :: rest else (k', vs) :: insGroup k v rest

/-- Models populating a `defaultdict(list)` by appending each pair in order:
keys in first-occurrence order, each key's values in encounter order. -/
def groupPairs [DecidableEq κ] (l : List (κ × α)) : List (κ × List α) :=
  l.foldl (fun acc p => insGroup p.1 p.2 acc) []

/-- Keys in first-occurrence order (the key sequence of a Python dict). -/
def dedupFirst [DecidableEq κ] (l : List κ) : List κ :=
  l.foldl (fun acc k => if k ∈ acc then acc else acc ++ [k]) []

/-- All values stored under key `k` (in encounter order). -/
def lookupAll [DecidableEq κ] (k : κ) (l : List (κ × α)) : List α :=
  (l.filter (fun p => p.1 = k)).map Prod.snd

/-- One feed record as consumed by the KAMIS fetch loops: the dictionary
fields that `_fetch_kamis_price_single` and `fetch_kamis_price_period` read
(string-valued; a missing key is `none`). -/
structure Item where
  countyname : Option Chars := none
  marketname : Option Chars := none
  price : Option Chars := none
  dpr1 : Option Chars := none
  dpr0 : Option Chars := none
  avgPrc : Option Chars := none
  value : Option Chars := none
  priceValue : Option Chars := none
  yyyy : Option Chars := none
  regday : Option Chars := none
  lastest_day : Option Chars := none
  productrankcode : Option Chars := none
deriving DecidableEq, Repr

/-- The `countyname` sentinels `("평균", "평년", "")` of `apis.py`. -/
def avgNames : List Chars := [cs ("평균"), cs ("평년"), []]

/-- Region filter of `_fetch_kamis_price_single` (apis.py lines 839-852):
nationwide keeps only average rows, the online market filters on
`marketname`, and a named region keeps its own rows plus average rows. -/
def passesRegionSingle (region : Chars) (it : Item) : Bool :=
  let cn := strip (it.countyname.getD [])
  if region = cs ("전국") then decide (cn ∈ avgNames)
  else if region = cs ("온라인") then
    let mn := strip (it.marketname.getD [])
    containsSub mn (cs ("온라인")) || containsSub mn (cs ("옥션"))
  else decide (cn ∈ avgNames) || decide (cn = region)

/-- Priority of `_fetch_kamis_price_single` (line 855): average rows get 2,
anything else 1. -/
def itemPrioritySingle (it : Item) : Nat :=
  let cn := strip (it.countyname.getD [])
  if cn ∈ avgNames then 2 else 1

/-- The `best_item` selection loop of `_fetch_kamis_price_single`
(lines 830-859): running best with `if priority < best_priority`. -/
def selStep (region : Chars) (acc : Option Item × Nat) (it : Item) : Option Item × Nat :=
  if passesRegionSingle region it && decide (itemPrioritySingle it < acc.2) then
    (some it, itemPrioritySingle it)
  else acc

/-- The selected `best_item` (or `none`) of `_fetch_kamis_price_single`. -/
def selectBestItem (region : Chars) (items : List Item) : Option Item :=
  (items.foldl (selStep region) (none, 999)).1

/-- The `or`-chained raw-price extraction of `_fetch_kamis_price_single`
(lines 866-873) and `fetch_kamis_price_period` (lines 1182-1189). -/
def extractRawPrice (it : Item) : Option Chars :=
  firstTruthy [it.price, it.dpr1, it.dpr0, it.avgPrc, it.value, it.priceValue]

/-- `int(float(str(raw_price).replace(",", "")))` where `raw_price` may be
`None` (then `str` gives `"None"`, which fails to parse). -/
def parsePriceField (raw : Option Chars) : Option Int :=
  pyFloatTruncInt (raw.getD (cs ("None")))

/-- `target_year = target_day[:4] if target_day and len(target_day) >= 4
else None` (apis.py line 894). -/
def targetYearOf (targetDay : Chars) : Option Chars :=
  if targetDay ≠ [] ∧ 4 ≤ targetDay.length then some (targetDay.take 4) else none

/-- Date-shape normalization of `_fetch_kamis_price_single` (lines 896-910):
`MM/DD` uses the target day's year when available and the `yyyy` field only
as fallback; `YYYY/MM/DD` is joined with dashes; 8 digits are sliced; a
dashed string of length ≥ 10 is truncated to 10; `none` means the shape
failed (the caller then substitutes the target day). -/
def singleShapeDate (yyyy regdayStr targetDay : Chars) : Option Chars :=
  if containsChar regdayStr '/' then
    match splitOn '/' regdayStr with
    | [p0, p1] =>
      match targetYearOf targetDay with
      | some ty => some (ty ++ '-' :: zfill2 p0 ++ '-' :: zfill2 p1)
      | none =>
        if yyyy ≠ [] then some (yyyy ++ '-' :: zfill2 p0 ++ '-' :: zfill2 p1) else none
    | [q0, q1, q2] => some (q0 ++ '-' :: q1 ++ '-' :: q2)
    | _ => none
  else if decide (regdayStr.length = 8) && allDigits regdayStr then
    some (regdayStr.take 4 ++ '-' :: (regdayStr.drop 4).take 2 ++ '-' :: (regdayStr.drop 6).take 2)
  else if containsChar regdayStr '-' && decide (10 ≤ regdayStr.length) then
    some (regdayStr.take 10)
  else none

/-- Date resolution of `_fetch_kamis_price_single` (lines 912-923): a failed
shape or short result falls back to the target day; otherwise both dates are
parsed and any mismatch (or parse failure) is replaced by the target day. -/
def resolveSingleDate (shaped : Option Chars) (targetDay : Chars) : Chars :=
  match shaped with
  | none => targetDay
  | some r =>
    if r.length < 10 then targetDay
    else
      match parseYmd r, parseYmd targetDay with
      | some pd, some td => if pd ≠ td then targetDay else r
      | _, _ => targetDay

/-- Price stage of `_fetch_kamis_price_single` (lines 866-881): `None` on a
parse failure or a non-positive value. -/
def priceOfItem (it : Item) : Option Int :=
  match parsePriceField (extractRawPrice it) with
  | none => none
  | some pv => if pv ≤ 0 then none else some pv

/-- Date stage of `_fetch_kamis_price_single` (lines 883-925): a falsy
`regday` aborts (line 887); otherwise shape normalization and resolution
against the target day. -/
def dateOfItem (it : Item) (targetDay : Chars) : Option Chars :=
  match it.regday with
  | none => none
  | some [] => none
  | some rdRaw =>
    some (resolveSingleDate
      (singleShapeDate (strip (it.yyyy.getD [])) (strip rdRaw) targetDay) targetDay)

/-- `_fetch_kamis_price_single` from the parsed item list on (lines
826-930): selection, price extraction, then date normalization; returns the
`{price, date}` pair.  The HTTP call and payload decoding that precede this
are modelled separately (`extractItemsSingle`). -/
def fetchSingleFromItems (region targetDay : Chars) (items : List Item) : Option (Int × Chars) :=
  (selectBestItem region items).bind (fun it =>
    (priceOfItem it).bind (fun pv =>
      (dateOfItem it targetDay).map (fun d => (pv, d))))

/-- Grade-name map of the domestic-beef entries of `PRICE_KAMIS_CODES`
(`grade_codes`), as read by the all-grades loop of `fetch_kamis_price`. -/
def beefGradeName (gc : Chars) : Chars :=
  if gc = cs ("00") then cs ("전체")
  else if gc = cs ("01") then cs ("1++등급")
  else if gc = cs ("02") then cs ("1+등급")
  else if gc = cs ("03") then cs ("1등급")
  else gc ++ cs ("등급")

/-- One row of the `gradePrices` breakdown built by `fetch_kamis_price`. -/
structure GradeEntry where
  grade : Chars
  price : Int
  priceDate : Chars
deriving DecidableEq, Repr

/-- Result of the all-grades branch of `fetch_kamis_price` (the fields the
claims are about; `unit`, `trend` and `source` are constants). -/
structure AggOut where
  currentPrice : Int
  price_date : Chars
  gradePrices : List GradeEntry
deriving DecidableEq, Repr

/-- The all-grades branch of `fetch_kamis_price` (lines 534-592): grades
"01","02","03" are fetched (an input of `none` models a per-grade fetch
that raised and was converted to `None` by `_fetch_one_grade`), failures are
dropped from the breakdown, a 404 is raised when nothing resolved, and the
result carries `int(sum/len)` of the resolved prices together with
`grade_prices[0]["priceDate"]`. -/
def aggGradeEntriesOf (r1 r2 r3 : Option (Int × Chars)) : List GradeEntry :=
  [(cs ("01"), r1), (cs ("02"), r2), (cs ("03"), r3)].filterMap
    (fun p => p.2.map (fun pd => ⟨beefGradeName p.1, pd.1, pd.2⟩))

def fetchKamisAllGrades (region targetDay : Chars)
    (payload01 payload02 payload03 : Option (List Item)) : Except Nat AggOut :=
  match aggGradeEntriesOf (payload01.bind (fetchSingleFromItems region targetDay))
      (payload02.bind (fetchSingleFromItems region targetDay))
      (payload03.bind (fetchSingleFromItems region targetDay)) with
  | [] => Except.error 404
  | gp :: rest =>
    Except.ok ⟨pyTruncDiv ((gp :: rest).map (·.price)).sum (gp :: rest).length,
      gp.priceDate, gp :: rest⟩

/-- `fetch_kamis_price` computes `target_day` as yesterday relative to the
request time (apis.py lines 509-511) before entering the all-grades branch. -/
def fetchKamisAllGradesAt (today : Ymd) (region : Chars)
    (p1 p2 p3 : Option (List Item)) : Except Nat AggOut :=
  fetchKamisAllGrades region (renderYmd (predYmd today)) p1 p2 p3

/-- `product_rank_code` computation of `fetch_kamis_price_period`
(apis.py lines 979-996). -/
def periodRankCode (partName gradeCode : Chars) : Chars :=
  if (cs ("Import_Beef_")).isPrefixOf partName then
    if containsSub partName (cs ("_US")) then cs ("81")
    else if containsSub partName (cs ("_AU")) then cs ("82")
    else gradeCode
  else if (cs ("Beef_")).isPrefixOf partName then gradeCode
  else if (cs ("Pork_")).isPrefixOf partName || (cs ("Import_Pork_")).isPrefixOf partName then []
  else gradeCode

/-- `rankcode_map.get(code, code.zfill(2) if code else "00")` of the period
grade filter (lines 1142-1143). -/
def rankcodeNormalize (s : Chars) : Chars :=
  if s = cs ("1") then cs ("01")
  else if s = cs ("2") then cs ("02")
  else if s = cs ("3") then cs ("03")
  else if s = cs ("0") then cs ("00")
  else if s = [] then cs ("00")
  else zfill2 s

/-- Relaxed per-item grade filter of `fetch_kamis_price_period`
(lines 1136-1153): only applied for domestic beef with a specific grade;
an item with an explicit different normalized rank code is dropped. -/
def passesGradePeriod (partName gradeCode prodRank : Chars) (it : Item) : Bool :=
  if (cs ("Beef_")).isPrefixOf partName && decide (gradeCode ≠ cs ("00")) &&
      decide (prodRank ≠ cs ("00")) then
    let ic := strip (it.productrankcode.getD [])
    let nc := rankcodeNormalize ic
    ! (decide (ic ≠ []) && decide (nc ≠ cs ("00")) && decide (nc ≠ prodRank))
  else true

/-- Region filter of `fetch_kamis_price_period` (lines 1155-1180).  The
`region_name_map` of lines 1164-1173 maps every listed name to itself and
defaults to the region, so the expected county name is the region itself. -/
def passesRegionPeriod (region : Chars) (it : Item) : Bool :=
  let cn := strip (it.countyname.getD [])
  if cn ∈ avgNames then decide (region = cs ("전국"))
  else if region ≠ cs ("전국") ∧ region ≠ cs ("온라인") then decide (cn = region)
  else if region = cs ("온라인") then
    let mn := strip (it.marketname.getD [])
    containsSub mn (cs ("온라인")) || containsSub mn (cs ("옥션"))
  else true

/-- Date-shape normalization of the period path (lines 1206-1225): here
`MM/DD` requires the separate `yyyy` field and uses it for the year. -/
def periodShapeDate (yyyy regdayStr : Chars) : Option Chars :=
  if containsChar regdayStr '/' then
    match splitOn '/' regdayStr with
    | [p0, p1] =>
      if yyyy ≠ [] then some (yyyy ++ '-' :: zfill2 p0 ++ '-' :: zfill2 p1) else none
    | [q0, q1, q2] => some (q0 ++ '-' :: q1 ++ '-' :: q2)
    | _ => none
  else if decide (regdayStr.length = 8) && allDigits regdayStr then
    some (regdayStr.take 4 ++ '-' :: (regdayStr.drop 4).take 2 ++ '-' :: (regdayStr.drop 6).take 2)
  else if containsChar regdayStr '-' && decide (10 ≤ regdayStr.length) then
    some (regdayStr.take 10)
  else none

/-- `countyname` priority of the period path (lines 1247-1254):
`전국` 0, average sentinels 2, a specific region 1. -/
def periodPriority (cn : Chars) : Nat :=
  if cn = cs ("전국") then 0 else if cn ∈ avgNames then 2 else 1

/-- One surviving observation of the period collection loop: the tuple
`(item, countyname, price_value, countyname_priority)` appended to
`by_date[regday]` (the `item` component is never read afterwards and is
omitted), together with its `regday` key. -/
structure PEntry where
  dateStr : Chars
  countyname : Chars
  price : Int
  priority : Nat
deriving DecidableEq, Repr

/-- Date validation of the period loop (lines 1227-1244): length check on
the shaped date, `strptime` on its first 10 characters, rejection of dates
after `today` and of years outside [2000, 2100]. -/
def periodDateOf (yyyy rdStripped : Chars) (today : Ymd) : Option Chars :=
  match periodShapeDate yyyy rdStripped with
  | none => none
  | some rd =>
    if rd.length < 10 then none
    else
      match parseYmd (rd.take 10) with
      | none => none
      | some dObj =>
        if toDayNum dObj > toDayNum today then none
        else if dObj.y < 2000 ∨ dObj.y > 2100 then none
        else some rd

/-- The per-item body of the period collection loop (lines 1132-1256):
grade filter, region filter, price extraction (failures count as 0 and are
dropped), date-shape normalization, then parse/range validation. -/
def periodSurvivor (partName region gradeCode prodRank : Chars) (today : Ymd)
    (it : Item) : Option PEntry :=
  if ! passesGradePeriod partName gradeCode prodRank it then none
  else if ! passesRegionPeriod region it then none
  else if (parsePriceField (extractRawPrice it)).getD 0 ≤ 0 then none
  else
    (firstTruthy [it.regday, it.lastest_day]).bind (fun rdRaw =>
      (periodDateOf (strip (it.yyyy.getD [])) (strip rdRaw) today).map (fun rd =>
        ⟨rd, strip (it.countyname.getD []), (parsePriceField (extractRawPrice it)).getD 0,
          periodPriority (strip (it.countyname.getD []))⟩))

/-- All surviving observations of the period collection loop, in feed order. -/
def periodSurvivors (partName region gradeCode prodRank : Chars) (today : Ymd)
    (items : List Item) : List PEntry :=
  items.filterMap (periodSurvivor partName region gradeCode prodRank today)

/-- Sort key of the per-date selection (line 1267): `countyname_priority`
ascending, then price descending (stable w.r.t. feed order). -/
def pePrioLe (a b : PEntry) : Bool :=
  decide (a.priority < b.priority) || (decide (a.priority = b.priority) && decide (b.price ≤ a.price))

/-- Key order used by `sorted(by_date.items())`: the date strings (the
values are never compared because dict keys are distinct). -/
def dateKeyLe (a b : Chars × List PEntry) : Bool := lexLe a.1 b.1

/-- The emission loop of `fetch_kamis_price_period` (lines 1262-1277): for
each date group in sorted order, pick the head of the stable
`(priority asc, price desc)` sort, apply the forward-fill-on-nonpositive
branch, and append when positive, updating `last_price`. -/
def periodEmit (groups : List (Chars × List PEntry)) (lp : Option Int) :
    List (Chars × Int) :=
  match groups with
  | [] => []
  | g :: rest =>
    match sortBy pePrioLe g.2 with
    | [] => periodEmit rest lp
    | sel :: _ =>
      let sp : Int :=
        if sel.price ≤ 0 then (match lp with | some l => l | none => sel.price)
        else sel.price
      if 0 < sp then (g.1, sp) :: periodEmit rest (some sp) else periodEmit rest lp

/-- The direct (non-recursive) path of `fetch_kamis_price_period` from the
parsed item list on (lines 1119-1287): collection into `by_date`
(`last_price` ends as the last survivor's price, line 1258-1260), selection
per date, and the final sort by date. -/
def fetchPeriodFromItems (partName region gradeCode : Chars) (today : Ymd)
    (items : List Item) : List (Chars × Int) :=
  sortBy (fun a b => lexLe a.1 b.1)
    (periodEmit
      (sortBy dateKeyLe (groupPairs
        ((periodSurvivors partName region gradeCode (periodRankCode partName gradeCode)
          today items).map (fun e => (e.dateStr, e)))))
      (((periodSurvivors partName region gradeCode (periodRankCode partName gradeCode)
          today items).getLast?).map (·.price)))

/-- Decoded feed payload tree, as produced by `_parse_response` (JSON object
/ `xmltodict` result): string leaves, objects, arrays. -/
inductive JVal where
  | s (v : Chars)
  | obj (fields : List (String × JVal))
  | arr (xs : List JVal)

/-- `dict.get(k)` on an object node (`none` elsewhere; a non-dict receiver
would raise `AttributeError` in Python, which does not occur for the
payloads in scope). -/
def jgetObj : JVal → String → Option JVal
  | JVal.obj fs, k => (fs.find? (fun p => p.1 = k)).map Prod.snd
  | _, _ => none

/-- `k in parsed` membership test on a decoded payload. -/
def hasKey (j : JVal) (k : String) : Bool := (jgetObj j k).isSome

/-- Python truthiness of a payload node (used by `document or {}`). -/
def truthyJ : JVal → Bool
  | JVal.s v => ! v.isEmpty
  | JVal.obj fs => ! fs.isEmpty
  | JVal.arr xs => ! xs.isEmpty

/-- Object test (`isinstance(data, dict)`). -/
def isObj : JVal → Bool
  | JVal.obj _ => true
  | _ => false

/-- `_ensure_list` (apis.py lines 68-75) applied to a `dict.get` result. -/
def ensureListO : Option JVal → List JVal
  | none => []
  | some (JVal.arr xs) => xs
  | some (JVal.obj fs) => [JVal.obj fs]
  | some (JVal.s _) => []

/-- `str(data.get("error_code", "000"))`: missing key defaults to "000"; a
non-string node would stringify to its `repr`, which is never "0"/"000",
modelled by the marker "ERR". -/
def errorCodeStr (data : JVal) : Chars :=
  match jgetObj data "error_code" with
  | none => cs ("000")
  | some (JVal.s v) => v
  | some _ => cs ("ERR")

/-- `document = parsed.get("document", {}) or {}`. -/
def documentOf (parsed : JVal) : JVal :=
  match jgetObj parsed "document" with
  | some d => if truthyJ d then d else JVal.obj []
  | none => JVal.obj []

/-- Direct `data.item` extraction guarded by the error code (the shared
shape of apis.py lines 786-801 and 1097-1107): items only when the `data`
node is a dict whose error code is "0"/"000". -/
def dataItems (data : JVal) : List JVal :=
  if isObj data then
    if errorCodeStr data = cs ("0") ∨ errorCodeStr data = cs ("000") then
      ensureListO (jgetObj data "item")
    else []
  else []

/-- `if not items:` chaining — keep the previous nonempty result, else try
the next source. -/
def orElseList (a b : List JVal) : List JVal := if a.isEmpty then b else a

/-- Path 1 of the single-fetch extraction: `document.data.item` guarded by
the error code (apis.py lines 786-793). -/
def extractSinglePath1 (parsed : JVal) : List JVal :=
  if hasKey parsed "document" then
    dataItems ((jgetObj (documentOf parsed) "data").getD (JVal.obj []))
  else []

/-- Path 2: top-level `data.item` (lines 796-801). -/
def extractPath2 (parsed : JVal) : List JVal :=
  if hasKey parsed "data" then dataItems ((jgetObj parsed "data").getD (JVal.obj []))
  else []

/-- Path 3: top-level `item` (lines 804-805). -/
def extractPath3 (parsed : JVal) : List JVal :=
  if hasKey parsed "item" then ensureListO (jgetObj parsed "item") else []

/-- Item extraction of `_fetch_kamis_price_single` (lines 783-805): path 1
`document.data.item`, path 2 top-level `data.item`, path 3 top-level
`item`, each tried only when the previous produced nothing. -/
def extractItemsSingle (parsed : JVal) : List JVal :=
  orElseList (orElseList (extractSinglePath1 parsed) (extractPath2 parsed))
    (extractPath3 parsed)

/-- `_collect_items` of `fetch_kamis_price_period` (lines 1083-1094):
recursive search flattening every node keyed `item`. -/
def collectItems : JVal → List JVal
  | JVal.s _ => []
  | JVal.obj fs => collectItemsFields fs
  | JVal.arr xs => collectItemsList xs
where
  collectItemsFields : List (String × JVal) → List JVal
    | [] => []
    | (k, v) :: rest =>
      (if k = "item" then ensureListO (some v) else collectItems v) ++ collectItemsFields rest
  collectItemsList : List JVal → List JVal
    | [] => []
    | x :: rest => collectItems x ++ collectItemsList rest

/-- Path 1 of the period extraction (lines 1097-1103): the direct
`document.data.item` read, falling back to the recursive `_collect_items`
search over the whole document when it yields nothing. -/
def extractPeriodPath1 (parsed : JVal) : List JVal :=
  if hasKey parsed "document" then
    orElseList (dataItems ((jgetObj (documentOf parsed) "data").getD (JVal.obj [])))
      (collectItems (documentOf parsed))
  else []

/-- Item extraction of `fetch_kamis_price_period` (lines 1096-1109): like
the single path, but when the `document` path yields nothing the whole
document is searched recursively with `_collect_items`. -/
def extractItemsPeriod (parsed : JVal) : List JVal :=
  orElseList (orElseList (extractPeriodPath1 parsed) (extractPath2 parsed))
    (extractPath3 parsed)

/-- One row of the `market_prices` cache table (models/market_price.py), the
columns read by `PriceService`. -/
structure MarketPriceRow where
  part_name : Chars
  region : Chars
  grade_code : Chars
  price_date : Ymd
  current_price : Int
deriving DecidableEq, Repr

/-- The cache payload assembled by `PriceService._get_from_db_cache`
(price_service.py lines 141-148); `unit`, `trend` and `gradePrices` are
constants there. -/
structure CacheData where
  currentPrice : Int
  price_date : Chars
deriving DecidableEq, Repr

/-- First row holding the maximal `price_date` (`ORDER BY price_date DESC
LIMIT 1`; the order among equal dates is unspecified in SQL and modelled as
first-in-table). -/
def pickLatest (rows : List MarketPriceRow) : Option MarketPriceRow :=
  rows.foldl
    (fun best r =>
      match best with
      | none => some r
      | some b => if toDayNum b.price_date < toDayNum r.price_date then some r else some b)
    none

/-- `PriceService._get_from_db_cache` (lines 111-151): domestic beef with
grade "00" (or an unknown grade) never reads the cache; pork and imports
use the empty grade; rows older than `today - cache_days (7)` are excluded;
the newest matching row is returned. -/
def getFromDbCache (db : List MarketPriceRow) (partName region : Chars) (today : Ymd)
    (gradeCode : Chars) : Option CacheData :=
  let g? : Option Chars :=
    if (cs ("Beef_")).isPrefixOf partName && ! (cs ("Import_Beef_")).isPrefixOf partName then
      if gradeCode = cs ("00") then none
      else if gradeCode ∈ [cs ("01"), cs ("02"), cs ("03")] then some gradeCode
      else none
    else some []
  match g? with
  | none => none
  | some g =>
    let cutoff := toDayNum today - 7
    let rows := db.filter
      (fun r => decide (r.part_name = partName) && decide (r.region = region) &&
        decide (r.grade_code = g) && decide (cutoff ≤ toDayNum r.price_date))
    (pickLatest rows).map (fun r => ⟨r.current_price, renderYmd r.price_date⟩)

/-- Outcome of `KamisService.fetch_current_price` as observed by
`PriceService.fetch_current_price`: a successful `api_data` payload, a
raised `HTTPException` with its status, or any other exception. -/
inductive KamisOutcome where
  | success (price : Int) (priceDate : Chars)
  | httpExc (status : Nat)
  | otherExc
deriving DecidableEq, Repr

/-- The `source` tag of a `PriceService.fetch_current_price` result. -/
inductive Src where
  | cache
  | api
deriving DecidableEq, Repr

/-- A `PriceService.fetch_current_price` result (the fields the claims are
about). -/
structure FetchOut where
  price : Int
  price_date : Chars
  source : Src
deriving DecidableEq, Repr

/-- The freshness test of step 1 (price_service.py lines 37-43): the cached
date must parse and lie in [yesterday, today]. -/
def cacheFreshHit (today : Ymd) (cacheData : Option CacheData) : Option CacheData :=
  match cacheData with
  | some cd =>
    match parseYmd cd.price_date with
    | some cdate =>
      if toDayNum today - 1 ≤ toDayNum cdate ∧ toDayNum cdate ≤ toDayNum today then some cd
      else none
    | none => none
  | none => none

/-- Step 3 of `fetch_current_price` (lines 62-66): return any held cache
value (tagged cache), else HTTP 503. -/
def cacheFallback (db? : Option (List MarketPriceRow)) (cacheData : Option CacheData) :
    Except Nat FetchOut :=
  match db?, cacheData with
  | some _, some cd => Except.ok ⟨cd.currentPrice, cd.price_date, Src.cache⟩
  | _, _ => Except.error 503

/-- `PriceService.fetch_current_price` (price_service.py lines 21-66):
(1) a cached value dated within [yesterday, today] is returned immediately
tagged cache; (2) otherwise the KAMIS pipeline runs — a positive price is
returned tagged api, an `HTTPException` is re-raised (`except
HTTPException: raise`), any other exception falls through; (3) any held
cache value (however stale) is returned tagged cache; else HTTP 503.  The
write-back to the cache on success is a side effect not modelled. -/
def fetchCurrentPrice (today : Ymd) (db? : Option (List MarketPriceRow))
    (partName region gradeCode : Chars) (api : KamisOutcome) : Except Nat FetchOut :=
  match cacheFreshHit today
      (db?.bind (fun db => getFromDbCache db partName region today gradeCode)) with
  | some cd => Except.ok ⟨cd.currentPrice, cd.price_date, Src.cache⟩
  | none =>
    match api with
    | KamisOutcome.success p d =>
      if p > 0 then Except.ok ⟨p, d, Src.api⟩
      else cacheFallback db?
        (db?.bind (fun db => getFromDbCache db partName region today gradeCode))
    | KamisOutcome.httpExc status => Except.error status
    | KamisOutcome.otherExc =>
      cacheFallback db?
        (db?.bind (fun db => getFromDbCache db partName region today gradeCode))

/-- One emitted weekly bucket of `_aggregate_daily_by_week` (the
`MM.DD~MM.DD` label is a rendering of these two day numbers and carries no
further information; `partName` is passed through unchanged). -/
structure WPoint where
  weekStart : Nat
  weekEnd : Nat
  price : Int
deriving DecidableEq, Repr

/-- Monday-based weekday (`date.weekday()`: Monday = 0) of a day number. -/
def weekdayN (n : Nat) : Nat := (n + 6) % 7

/-- The `(week_start, week_end)` bucket key of `_aggregate_daily_by_week`
(dashboard.py lines 224-230), on day numbers. -/
def weekKeyOf (yN n : Nat) : Nat × Nat :=
  (n - weekdayN n, min (n - weekdayN n + 6) yN)

/-- Key order of `sorted(by_week.items(), key=(start, end))`. -/
def weekKeyLe (a b : (Nat × Nat) × List Int) : Bool :=
  decide (a.1.1 < b.1.1) || (decide (a.1.1 = b.1.1) && decide (a.1.2 ≤ b.1.2))

/-- The valid daily points of `_aggregate_daily_by_week` (lines 199-214):
dates of length ≥ 10 whose first 10 characters parse, not after yesterday,
with positive price; kept as (day number, price). -/
def validDailyPoints (yN : Nat) (daily : List (Chars × Int)) : List (Nat × Int) :=
  daily.filterMap (fun (p : Chars × Int) =>
    if p.1.length < 10 then none
    else
      match parseYmd (p.1.take 10) with
      | none => none
      | some dt =>
        if toDayNum dt > yN then none
        else if p.2 > 0 then some (toDayNum dt, p.2) else none)

/-- The prices of all valid daily points falling in the week bucket `w`
(the extensional description of one `by_week` group, used in theorems). -/
def weekPricesOf (yN : Nat) (daily : List (Chars × Int)) (w : Nat × Nat) : List Int :=
  ((validDailyPoints yN daily).filter (fun p => weekKeyOf yN p.1 = w)).map Prod.snd

/-- Emission of one weekly bucket (`if prices: avg_price = int(sum/len)`,
dashboard.py lines 238-247). -/
def weekPointOf (g : (Nat × Nat) × List Int) : Option WPoint :=
  match g.2 with
  | [] => none
  | q :: qs => some ⟨g.1.1, g.1.2, pyTruncDiv (q :: qs).sum (q :: qs).length⟩

/-- `_aggregate_daily_by_week` (dashboard.py lines 186-250): filter to valid
points, group by the `(week_start, week_end)` bucket, and emit
`int(sum/len)` per nonempty bucket in ascending key order. -/
def aggregateDailyByWeek (today : Ymd) (daily : List (Chars × Int)) : List WPoint :=
  if daily = [] then []
  else if validDailyPoints (toDayNum today - 1) daily = [] then []
  else
    (sortBy weekKeyLe (groupPairs ((validDailyPoints (toDayNum today - 1) daily).map
      (fun p => (weekKeyOf (toDayNum today - 1) p.1, p.2))))).filterMap weekPointOf

/-- Extensional description of `groupPairs`: keys in first-occurrence order,
each carrying all its values in encounter order (proved equal below and used
to reason about the `defaultdict` groupings). -/
def groupSpec [DecidableEq κ] (l : List (κ × α)) : List (κ × List α) :=
  (dedupFirst (l.map Prod.fst)).map (fun k => (k, lookupAll k l))

/-- Resolved date of an observation on the single-price path, as a day
number (0 when unparseable); used to express the spec-side ordering. -/
def specDateKey (targetDay : Chars) (it : Item) : Nat :=
  match parseYmd (resolveSingleDate
      (singleShapeDate (strip (it.yyyy.getD [])) (strip ((it.regday.getD []))) targetDay)
      targetDay) with
  | some t => toDayNum t
  | none => 0

/-- Extracted price of an observation (0 when unparseable); used to express
the spec-side ordering. -/
def specPriceKey (it : Item) : Int := (parsePriceField (extractRawPrice it)).getD 0

/-- Modelled from the spec: the total order "priority ascending, date
descending, price descending" that claim C4 ascribes to the selector. -/
def specOrderLe (targetDay : Chars) (a b : Item) : Bool :=
  decide (itemPrioritySingle a < itemPrioritySingle b) ||
    (decide (itemPrioritySingle a = itemPrioritySingle b) &&
      (decide (specDateKey targetDay b < specDateKey targetDay a) ||
        (decide (specDateKey targetDay a = specDateKey targetDay b) &&
          decide (specPriceKey b ≤ specPriceKey a))))

/-- Modelled from the spec: selector that sorts the region-filtered set by
`specOrderLe` and takes the first element (claim C4's description). -/
def specOrderSelect (region targetDay : Chars) (items : List Item) : Option Item :=
  (sortBy (specOrderLe targetDay) (items.filter (passesRegionSingle region))).head?

theorem isDig_digitChar (k : Nat) (h : k < 10) : isDig (digitChar k) = true := by
  interval_cases k <;> decide

theorem dv_digitChar (k : Nat) (h : k < 10) : dv (digitChar k) = k := by
  interval_cases k <;> decide

theorem parseMonth_pad2 (m : Nat) (h1 : 1 ≤ m) (h2 : m ≤ 12) (rest : Chars) :
    parseMonth (pad2 m ++ rest) = some (m, rest) := by
  interval_cases m <;> rfl

theorem parseDay_pad2 (d : Nat) (h1 : 1 ≤ d) (h2 : d ≤ 31) (rest : Chars) :
    parseDay (pad2 d ++ rest) = some (d, rest) := by
  interval_cases d <;> rfl

theorem parseYmd_renderYmd (t : Ymd) (h : validYmd t) : parseYmd (renderYmd t) = some t := by
  obtain ⟨y, m, d⟩ := t
  obtain ⟨hy1, hy2, hm1, hm2, hd1, hd2⟩ := h
  simp only at hy1 hy2 hm1 hm2 hd1 hd2
  have e1 : renderYmd ⟨y, m, d⟩ =
      digitChar (y / 1000 % 10) :: digitChar (y / 100 % 10) :: digitChar (y / 10 % 10) ::
        digitChar (y % 10) :: '-' :: (pad2 m ++ '-' :: pad2 d) := by
    simp [renderYmd, pad4, List.append_assoc]
  rw [e1]
  have hd10 : ∀ n : Nat, n % 10 < 10 := fun n => Nat.mod_lt _ (by omega)
  rw [parseYmd]
  rw [isDig_digitChar _ (hd10 _), isDig_digitChar _ (hd10 _), isDig_digitChar _ (hd10 _),
    isDig_digitChar _ (hd10 _)]
  simp only [Bool.and_self, if_true]
  rw [parseMonth_pad2 m hm1 hm2, dv_digitChar _ (hd10 _), dv_digitChar _ (hd10 _),
    dv_digitChar _ (hd10 _), dv_digitChar _ (hd10 _)]
  have hd31 : d ≤ 31 := by
    have : daysInMonth y m ≤ 31 := by
      unfold daysInMonth
      split <;> [split <;> omega; split <;> omega]
    omega
  have hy : ((y / 1000 % 10 * 10 + y / 100 % 10) * 10 + y / 10 % 10) * 10 + y % 10 = y := by
    omega
  rw [hy]
  show finishDay y m (parseDay (pad2 d)) = some ⟨y, m, d⟩
  have hpd := parseDay_pad2 d hd1 hd31 []
  rw [List.append_nil] at hpd
  rw [hpd]
  show (if 1 ≤ y ∧ d ≤ daysInMonth y m then some (⟨y, m, d⟩ : Ymd) else none) = some ⟨y, m, d⟩
  rw [if_pos ⟨by omega, hd2⟩]

theorem resolveSingleDate_parses (shaped : Option Chars) (t : Ymd) (h : validYmd t) :
    parseYmd (resolveSingleDate shaped (renderYmd t)) = some t := by
  have hrt := parseYmd_renderYmd t h
  cases shaped with
  | none => simpa [resolveSingleDate] using hrt
  | some r =>
    unfold resolveSingleDate
    by_cases hlen : r.length < 10
    · simpa [hlen] using hrt
    · simp only [hlen, if_false]
      cases hpr : parseYmd r with
      | none => simp [hrt]
      | some pd =>
        rw [hrt]
        by_cases hne : pd ≠ t
        · simpa [hne] using hrt
        · push_neg at hne
          subst hne
          simp [hpr]

theorem dateOfItem_parses (it : Item) (t : Ymd) (h : validYmd t) (d : Chars)
    (hd : dateOfItem it (renderYmd t) = some d) : parseYmd d = some t := by
  unfold dateOfItem at hd
  cases h4 : it.regday with
  | none => rw [h4] at hd; exact absurd hd (by simp)
  | some rd =>
    rw [h4] at hd
    cases rd with
    | nil => exact absurd hd (by simp)
    | cons c rest =>
      simp only [Option.some.injEq] at hd
      rw [← hd]
      exact resolveSingleDate_parses _ t h

theorem fetchSingleFromItems_date (region : Chars) (t : Ymd) (h : validYmd t)
    (items : List Item) (p : Int) (d : Chars)
    (hf : fetchSingleFromItems region (renderYmd t) items = some (p, d)) :
    parseYmd d = some t := by
  unfold fetchSingleFromItems at hf
  rw [Option.bind_eq_some] at hf
  obtain ⟨it, hit, hf⟩ := hf
  rw [Option.bind_eq_some] at hf
  obtain ⟨pv, hpv, hf⟩ := hf
  rw [Option.map_eq_some'] at hf
  obtain ⟨d0, hd0, hpair⟩ := hf
  obtain ⟨hp, hd⟩ := Prod.mk.injEq .. ▸ hpair
  exact hd ▸ dateOfItem_parses it t h d0 hd0

theorem itemPrioritySingle_cases (it : Item) :
    itemPrioritySingle it = 1 ∨ itemPrioritySingle it = 2 := by
  unfold itemPrioritySingle
  by_cases h : strip (it.countyname.getD []) ∈ avgNames <;> simp [h]

theorem selStep_at_one (region : Chars) (l : List Item) (s : Item) :
    l.foldl (selStep region) (some s, 1) = (some s, 1) := by
  induction l with
  | nil => rfl
  | cons x xs ih =>
    have hx : selStep region (some s, 1) x = (some s, 1) := by
      unfold selStep
      have := itemPrioritySingle_cases x
      rcases this with h | h <;> simp [h]
    rw [List.foldl_cons, hx, ih]

theorem selStep_at_two (region : Chars) (l : List Item) (b : Option Item) :
    (l.foldl (selStep region) (b, 2)).1 =
      match (l.filter (passesRegionSingle region)).find?
          (fun it => itemPrioritySingle it == 1) with
      | some it => some it
      | none => b := by
  induction l generalizing b with
  | nil => rfl
  | cons x xs ih =>
    rw [List.foldl_cons]
    by_cases hp : passesRegionSingle region x = true
    · rcases itemPrioritySingle_cases x with h1 | h1
      · have hx : selStep region (b, 2) x = (some x, 1) := by
          unfold selStep; simp [hp, h1]
        rw [hx, selStep_at_one]
        simp [List.filter_cons, hp, List.find?_cons, h1]
      · have hx : selStep region (b, 2) x = (b, 2) := by
          unfold selStep; simp [hp, h1]
        rw [hx, ih]
        simp [List.filter_cons, hp, List.find?_cons, h1]
    · have hx : selStep region (b, 2) x = (b, 2) := by
        unfold selStep
        simp [Bool.eq_false_iff.mpr hp]
      rw [hx, ih]
      simp [List.filter_cons, Bool.eq_false_iff.mpr hp]

/-- The selection loop of `_fetch_kamis_price_single` picks the first
region-surviving item of priority 1 if one exists, otherwise the first
region-surviving item (necessarily of priority 2); dates and prices play no
role. -/
theorem selectBestItem_eq (region : Chars) (items : List Item) :
    selectBestItem region items =
      match (items.filter (passesRegionSingle region)).find?
          (fun it => itemPrioritySingle it == 1) with
      | some it => some it
      | none => (items.filter (passesRegionSingle region)).head? := by
  unfold selectBestItem
  induction items with
  | nil => rfl
  | cons x xs ih =>
    rw [List.foldl_cons]
    by_cases hp : passesRegionSingle region x = true
    · rcases itemPrioritySingle_cases x with h1 | h1
      · have hx : selStep region (none, 999) x = (some x, 1) := by
          unfold selStep; simp [hp, h1]
        rw [hx, selStep_at_one]
        simp [List.filter_cons, hp, List.find?_cons, h1]
      · have hx : selStep region (none, 999) x = (some x, 2) := by
          unfold selStep; simp [hp, h1]
        rw [hx, selStep_at_two]
        simp [List.filter_cons, hp, List.find?_cons, h1]
    · have hx : selStep region (none, 999) x = (none, 999) := by
        unfold selStep
        simp [Bool.eq_false_iff.mpr hp]
      rw [hx, ih]
      simp [List.filter_cons, Bool.eq_false_iff.mpr hp]

theorem mem_insertBy (le : α → α → Bool) (x a : α) (l : List α) :
    a ∈ insertBy le x l ↔ a = x ∨ a ∈ l := by
  induction l with
  | nil => simp [insertBy]
  | cons y ys ih =>
    unfold insertBy
    by_cases h : le x y = true
    · rw [if_pos h]
      simp only [List.mem_cons]
    · rw [if_neg h]
      simp only [List.mem_cons, ih]
      tauto

theorem length_insertBy (le : α → α → Bool) (x : α) (l : List α) :
    (insertBy le x l).length = l.length + 1 := by
  induction l with
  | nil => rfl
  | cons y ys ih =>
    unfold insertBy
    by_cases h : le x y = true <;> simp [h, ih]

theorem mem_sortBy (le : α → α → Bool) (a : α) (l : List α) :
    a ∈ sortBy le l ↔ a ∈ l := by
  induction l with
  | nil => simp [sortBy]
  | cons y ys ih =>
    unfold sortBy at ih ⊢
    rw [List.foldr_cons, mem_insertBy, ih, List.mem_cons]

theorem length_sortBy (le : α → α → Bool) (l : List α) :
    (sortBy le l).length = l.length := by
  induction l with
  | nil => rfl
  | cons y ys ih =>
    unfold sortBy at ih ⊢
    rw [List.foldr_cons, length_insertBy, ih, List.length_cons]

theorem insertBy_pairwise (le : α → α → Bool)
    (htot : ∀ a b, le a b = true ∨ le b a = true)
    (htrans : ∀ a b c, le a b = true → le b c = true → le a c = true)
    (x : α) (l : List α) (hl : l.Pairwise (fun a b => le a b = true)) :
    (insertBy le x l).Pairwise (fun a b => le a b = true) := by
  induction l with
  | nil => simp [insertBy]
  | cons y ys ih =>
    rw [List.pairwise_cons] at hl
    unfold insertBy
    by_cases h : le x y = true
    · rw [if_pos h, List.pairwise_cons]
      constructor
      · intro b hb
        rcases List.mem_cons.mp hb with rfl | hb
        · exact h
        · exact htrans x y b h (hl.1 b hb)
      · exact List.pairwise_cons.mpr hl
    · rw [if_neg h, List.pairwise_cons]
      constructor
      · intro b hb
        rcases (mem_insertBy le x b ys).mp hb with rfl | hb
        · rcases htot b y with h2 | h2
          · exact absurd h2 h
          · exact h2
        · exact hl.1 b hb
      · exact ih hl.2

theorem sortBy_pairwise (le : α → α → Bool)
    (htot : ∀ a b, le a b = true ∨ le b a = true)
    (htrans : ∀ a b c, le a b = true → le b c = true → le a c = true)
    (l : List α) : (sortBy le l).Pairwise (fun a b => le a b = true) := by
  induction l with
  | nil => simp [sortBy]
  | cons y ys ih =>
    unfold sortBy at ih ⊢
    rw [List.foldr_cons]
    exact insertBy_pairwise le htot htrans y _ ih

theorem sortBy_eq_of_pairwise (le : α → α → Bool) (l : List α)
    (hl : l.Pairwise (fun a b => le a b = true)) : sortBy le l = l := by
  induction l with
  | nil => rfl
  | cons y ys ih =>
    rw [List.pairwise_cons] at hl
    unfold sortBy
    rw [List.foldr_cons]
    have hys : sortBy le ys = ys := ih hl.2
    unfold sortBy at hys
    rw [hys]
    cases ys with
    | nil => rfl
    | cons z zs =>
      unfold insertBy
      rw [if_pos (hl.1 z (List.mem_cons_self z zs))]

theorem sortBy_idem (le : α → α → Bool)
    (htot : ∀ a b, le a b = true ∨ le b a = true)
    (htrans : ∀ a b c, le a b = true → le b c = true → le a c = true)
    (l : List α) : sortBy le (sortBy le l) = sortBy le l :=
  sortBy_eq_of_pairwise le _ (sortBy_pairwise le htot htrans l)

theorem insertBy_map (le1 : α → α → Bool) (le2 : β → β → Bool) (f : α → β)
    (hc : ∀ a b, le2 (f a) (f b) = le1 a b) (x : α) (l : List α) :
    insertBy le2 (f x) (l.map f) = (insertBy le1 x l).map f := by
  induction l with
  | nil => rfl
  | cons y ys ih =>
    rw [List.map_cons]
    unfold insertBy
    rw [hc]
    by_cases h : le1 x y = true
    · simp [h]
    · simp [h, ih]

theorem map_sortBy (le1 : α → α → Bool) (le2 : β → β → Bool) (f : α → β)
    (hc : ∀ a b, le2 (f a) (f b) = le1 a b) (l : List α) :
    sortBy le2 (l.map f) = (sortBy le1 l).map f := by
  induction l with
  | nil => rfl
  | cons y ys ih =>
    unfold sortBy at ih ⊢
    rw [List.map_cons, List.foldr_cons, List.foldr_cons, ih, insertBy_map le1 le2 f hc]

theorem mem_dedupAux [DecidableEq κ] (l : List κ) (acc : List κ) (x : κ) :
    x ∈ l.foldl (fun acc k => if k ∈ acc then acc else acc ++ [k]) acc ↔
      x ∈ acc ∨ x ∈ l := by
  induction l generalizing acc with
  | nil => simp
  | cons k ks ih =>
    rw [List.foldl_cons, ih]
    by_cases h : k ∈ acc
    · simp only [if_pos h, List.mem_cons]
      constructor
      · rintro (hx | hx)
        · exact Or.inl hx
        · exact Or.inr (Or.inr hx)
      · rintro (hx | rfl | hx)
        · exact Or.inl hx
        · exact Or.inl h
        · exact Or.inr hx
    · simp only [if_neg h, List.mem_append, List.mem_singleton, List.mem_cons]
      tauto

theorem mem_dedupFirst [DecidableEq κ] (l : List κ) (x : κ) :
    x ∈ dedupFirst l ↔ x ∈ l := by
  unfold dedupFirst
  rw [mem_dedupAux]
  simp

theorem nodup_dedupAux [DecidableEq κ] (l : List κ) (acc : List κ) (hacc : acc.Nodup) :
    (l.foldl (fun acc k => if k ∈ acc then acc else acc ++ [k]) acc).Nodup := by
  induction l generalizing acc with
  | nil => exact hacc
  | cons k ks ih =>
    rw [List.foldl_cons]
    by_cases h : k ∈ acc
    · rw [if_pos h]; exact ih acc hacc
    · rw [if_neg h]
      refine ih _ ?_
      rw [List.nodup_append]
      refine ⟨hacc, List.nodup_singleton k, fun x hx hk => ?_⟩
      rw [List.mem_singleton] at hk
      exact h (hk ▸ hx)

theorem nodup_dedupFirst [DecidableEq κ] (l : List κ) : (dedupFirst l).Nodup :=
  nodup_dedupAux l [] List.nodup_nil

theorem dedupFirst_append_single [DecidableEq κ] (ks : List κ) (k : κ) :
    dedupFirst (ks ++ [k]) =
      if k ∈ ks then dedupFirst ks else dedupFirst ks ++ [k] := by
  unfold dedupFirst
  rw [List.foldl_append]
  simp only [List.foldl_cons, List.foldl_nil]
  by_cases h : k ∈ ks
  · rw [if_pos ((mem_dedupAux ks [] k).mpr (Or.inr h) : _), if_pos h]
  · rw [if_neg, if_neg h]
    intro hc
    rcases (mem_dedupAux ks [] k).mp hc with hx | hx
    · simp at hx
    · exact h hx

theorem lookupAll_append_single [DecidableEq κ] (k' k : κ) (v : α) (g : List (κ × α)) :
    lookupAll k' (g ++ [(k, v)]) =
      lookupAll k' g ++ (if k' = k then [v] else []) := by
  unfold lookupAll
  rw [List.filter_append, List.map_append]
  congr 1
  by_cases h : k' = k
  · subst h
    simp [List.filter]
  · simp [List.filter, Ne.symm h, h]

theorem lookupAll_eq_nil [DecidableEq κ] (k : κ) (g : List (κ × α))
    (h : k ∉ g.map Prod.fst) : lookupAll k g = [] := by
  unfold lookupAll
  have hf : List.filter (fun p => decide (p.1 = k)) g = [] := by
    rw [List.filter_eq_nil_iff]
    intro p hp hk
    apply h
    rw [List.mem_map]
    exact ⟨p, hp, (of_decide_eq_true hk : p.1 = k)⟩
  rw [hf]
  rfl

theorem insGroup_map_not_mem [DecidableEq κ] (k : κ) (v : α) (h : κ → List α)
    (ds : List κ) (hk : k ∉ ds) :
    insGroup k v (ds.map (fun k' => (k', h k'))) =
      ds.map (fun k' => (k', h k')) ++ [(k, [v])] := by
  induction ds with
  | nil => rfl
  | cons e es ih =>
    rw [List.mem_cons, not_or] at hk
    rw [List.map_cons]
    unfold insGroup
    rw [if_neg hk.1, ih hk.2]
    simp

theorem insGroup_map_mem [DecidableEq κ] (k : κ) (v : α) (h : κ → List α)
    (ds : List κ) (hnd : ds.Nodup) (hk : k ∈ ds) :
    insGroup k v (ds.map (fun k' => (k', h k'))) =
      ds.map (fun k' => (k', if k' = k then h k' ++ [v] else h k')) := by
  induction ds with
  | nil => simp at hk
  | cons e es ih =>
    rw [List.nodup_cons] at hnd
    rw [List.map_cons, List.map_cons]
    unfold insGroup
    by_cases he : k = e
    · subst he
      rw [if_pos rfl]
      simp only [if_pos rfl]
      congr 1
      have : ∀ k' ∈ es, (fun k' => ((k', if k' = k then h k' ++ [v] else h k') : κ × List α)) k'
          = (fun k' => (k', h k')) k' := by
        intro k' hk'
        have : k' ≠ k := fun heq => hnd.1 (heq ▸ hk')
        simp [this]
      rw [List.map_congr_left this]
    · rw [if_neg he]
      rcases List.mem_cons.mp hk with rfl | hk2
    
      · exact absurd rfl he
      · rw [ih hnd.2 hk2]
        have : e ≠ k := fun hek => he hek.symm
        simp [this]

theorem insGroup_spec [DecidableEq κ] (g : List (κ × α)) (k : κ) (v : α) :
    insGroup k v (groupSpec g) = groupSpec (g ++ [(k, v)]) := by
  unfold groupSpec
  have hkeys : (g ++ [(k, v)]).map Prod.fst = g.map Prod.fst ++ [k] := by
    rw [List.map_append]; rfl
  rw [hkeys, dedupFirst_append_single]
  by_cases hk : k ∈ g.map Prod.fst
  · rw [if_pos hk]
    rw [insGroup_map_mem k v (fun k' => lookupAll k' g) (dedupFirst (g.map Prod.fst))
      (nodup_dedupFirst _) ((mem_dedupFirst _ k).mpr hk)]
    apply List.map_congr_left
    intro k' _
    rw [lookupAll_append_single]
    by_cases h' : k' = k
    · simp [h']
    · simp [h']
  · rw [if_neg hk]
    rw [insGroup_map_not_mem k v (fun k' => lookupAll k' g) (dedupFirst (g.map Prod.fst))
      (fun hc => hk ((mem_dedupFirst _ k).mp hc))]
    rw [List.map_append]
    congr 1
    · apply List.map_congr_left
      intro k' hk'
      rw [lookupAll_append_single]
      have h' : k' ≠ k := fun heq => hk (heq ▸ (mem_dedupFirst _ k').mp hk')
      simp [h']
    · rw [List.map_singleton, lookupAll_append_single, lookupAll_eq_nil k g hk]
      simp

theorem foldl_insGroup_spec [DecidableEq κ] (l g : List (κ × α)) :
    l.foldl (fun acc p => insGroup p.1 p.2 acc) (groupSpec g) = groupSpec (g ++ l) := by
  induction l generalizing g with
  | nil => rw [List.append_nil]; rfl
  | cons p ps ih =>
    rw [List.foldl_cons, insGroup_spec, ih]
    rw [List.append_assoc]
    rfl

/-- `defaultdict(list)` population groups exactly as described by
`groupSpec`: first-occurrence key order, complete per-key value lists. -/
theorem groupPairs_eq [DecidableEq κ] (l : List (κ × α)) : groupPairs l = groupSpec l := by
  have h0 : groupSpec ([] : List (κ × α)) = [] := rfl
  unfold groupPairs
  rw [← h0, foldl_insGroup_spec, List.nil_append]

theorem charLe_total (a b : Char) : charLe a b = true ∨ charLe b a = true := by
  unfold charLe
  rcases Nat.le_total a.toNat b.toNat with h | h
  · exact Or.inl (by simpa using h)
  · exact Or.inr (by simpa using h)

theorem charEq_of_le_le (a b : Char) (h1 : charLe a b = true) (h2 : charLe b a = true) :
    a = b := by
  unfold charLe at h1 h2
  have : a.toNat = b.toNat := Nat.le_antisymm (by simpa using h1) (by simpa using h2)
  exact Char.ofNat_toNat a ▸ Char.ofNat_toNat b ▸ congrArg Char.ofNat this

theorem lexLe_total (a b : Chars) : lexLe a b = true ∨ lexLe b a = true := by
  induction a generalizing b with
  | nil => exact Or.inl rfl
  | cons x xs ih =>
    cases b with
    | nil => exact Or.inr rfl
    | cons y ys =>
      unfold lexLe
      by_cases hxy : x = y
      · subst hxy
        simpa using ih ys
      · have hyx : ¬ y = x := fun h => hxy h.symm
        rw [if_neg hxy, if_neg hyx]
        exact charLe_total x y

theorem lexLe_trans (a b c : Chars) (h1 : lexLe a b = true) (h2 : lexLe b c = true) :
    lexLe a c = true := by
  induction a generalizing b c with
  | nil => rfl
  | cons x xs ih =>
    cases b with
    | nil => exact absurd h1 (by simp [lexLe])
    | cons y ys =>
      cases c with
      | nil => exact absurd h2 (by simp [lexLe])
      | cons z zs =>
        unfold lexLe at h1 h2 ⊢
        by_cases hxy : x = y
        · subst hxy
          rw [if_pos rfl] at h1
          by_cases hyz : x = z
          · subst hyz
            rw [if_pos rfl] at h2
            rw [if_pos rfl]
            exact ih ys zs h1 h2
          · rw [if_neg hyz] at h2
            rw [if_neg hyz]
            exact h2
        · rw [if_neg hxy] at h1
          by_cases hyz : y = z
          · subst hyz
            rw [if_neg hxy]
            exact h1
          · rw [if_neg hyz] at h2
            by_cases hxz : x = z
            · subst hxz
              have := charEq_of_le_le x y h1 (by
                unfold charLe at h2 ⊢
                have hle : y.toNat ≤ x.toNat := by simpa using h2
                simpa using hle)
              exact absurd this hxy
            · rw [if_neg hxz]
              unfold charLe at h1 h2 ⊢
              have hxyn : x.toNat ≤ y.toNat := by simpa using h1
              have hyzn : y.toNat ≤ z.toNat := by simpa using h2
              simpa using le_trans hxyn hyzn

theorem periodEmit_keys (groups : List (Chars × List PEntry)) (lp : Option Int)
    (hne : ∀ g ∈ groups, g.2 ≠ [])
    (hpos : ∀ g ∈ groups, ∀ v ∈ g.2, 0 < v.price) :
    (periodEmit groups lp).map Prod.fst = groups.map Prod.fst := by
  induction groups generalizing lp with
  | nil => rfl
  | cons g rest ih =>
    have hg2 : g.2 ≠ [] := hne g (List.mem_cons_self g rest)
    have hsne : sortBy pePrioLe g.2 ≠ [] := by
      intro hc
      apply hg2
      have := length_sortBy pePrioLe g.2
      rw [hc] at this
      exact List.length_eq_zero.mp this.symm
    unfold periodEmit
    cases hs : sortBy pePrioLe g.2 with
    | nil => exact absurd hs hsne
    | cons sel tl =>
      have hsel : sel ∈ g.2 := by
        have : sel ∈ sortBy pePrioLe g.2 := by rw [hs]; exact List.mem_cons_self sel tl
        exact (mem_sortBy pePrioLe sel g.2).mp this
      have hselpos : 0 < sel.price := hpos g (List.mem_cons_self g rest) sel hsel
      have hnn : ¬ sel.price ≤ 0 := by omega
      simp only [hnn, if_false, if_pos hselpos]
      rw [List.map_cons, List.map_cons]
      congr 1
      exact ih (some sel.price) (fun g' hg' => hne g' (List.mem_cons_of_mem g hg'))
        (fun g' hg' => hpos g' (List.mem_cons_of_mem g hg'))

theorem periodEmit_mem (groups : List (Chars × List PEntry)) (lp : Option Int)
    (hpos : ∀ g ∈ groups, ∀ v ∈ g.2, 0 < v.price) (pr : Chars × Int)
    (hpr : pr ∈ periodEmit groups lp) :
    ∃ g ∈ groups, pr.1 = g.1 ∧ ∃ v ∈ g.2, pr.2 = v.price := by
  induction groups generalizing lp with
  | nil => simp [periodEmit] at hpr
  | cons g rest ih =>
    unfold periodEmit at hpr
    cases hs : sortBy pePrioLe g.2 with
    | nil =>
      rw [hs] at hpr
      obtain ⟨g', hg', h⟩ := ih lp (fun g' hg' => hpos g' (List.mem_cons_of_mem g hg')) hpr
      exact ⟨g', List.mem_cons_of_mem g hg', h⟩
    | cons sel tl =>
      rw [hs] at hpr
      have hsel : sel ∈ g.2 := by
        have : sel ∈ sortBy pePrioLe g.2 := by rw [hs]; exact List.mem_cons_self sel tl
        exact (mem_sortBy pePrioLe sel g.2).mp this
      have hselpos : 0 < sel.price := hpos g (List.mem_cons_self g rest) sel hsel
      have hnn : ¬ sel.price ≤ 0 := by omega
      simp only [hnn, if_false, if_pos hselpos] at hpr
      rcases List.mem_cons.mp hpr with rfl | hpr2
      · exact ⟨g, List.mem_cons_self g rest, rfl, sel, hsel, rfl⟩
      · obtain ⟨g', hg', h⟩ := ih (some sel.price)
          (fun g' hg' => hpos g' (List.mem_cons_of_mem g hg')) hpr2
        exact ⟨g', List.mem_cons_of_mem g hg', h⟩

theorem periodSurvivor_pos (pn rg gc pr : Chars) (today : Ymd) (it : Item) (e : PEntry)
    (h : periodSurvivor pn rg gc pr today it = some e) : 0 < e.price := by
  unfold periodSurvivor at h
  by_cases h1 : (! passesGradePeriod pn gc pr it) = true
  · rw [if_pos h1] at h; exact absurd h (by simp)
  · rw [if_neg h1] at h
    by_cases h2 : (! passesRegionPeriod rg it) = true
    · rw [if_pos h2] at h; exact absurd h (by simp)
    · rw [if_neg h2] at h
      by_cases h3 : (parsePriceField (extractRawPrice it)).getD 0 ≤ 0
      · rw [if_pos h3] at h; exact absurd h (by simp)
      · rw [if_neg h3] at h
        rw [Option.bind_eq_some] at h
        obtain ⟨rdRaw, hrd, h⟩ := h
        rw [Option.map_eq_some'] at h
        obtain ⟨rd, hrd2, he⟩ := h
        rw [← he]
        simpa using lt_of_not_le h3

theorem mem_lookupAll [DecidableEq κ] (k : κ) (v : α) (l : List (κ × α)) :
    v ∈ lookupAll k l ↔ (k, v) ∈ l := by
  unfold lookupAll
  rw [List.mem_map]
  constructor
  · rintro ⟨p, hp, rfl⟩
    rw [List.mem_filter] at hp
    have : p.1 = k := of_decide_eq_true hp.2
    exact this ▸ (Prod.mk.eta ▸ hp.1)
  · intro h
    exact ⟨(k, v), List.mem_filter.mpr ⟨h, by simp⟩, rfl⟩

theorem mem_groupPairs [DecidableEq κ] (k : κ) (vs : List α) (l : List (κ × α))
    (h : (k, vs) ∈ groupPairs l) : vs = lookupAll k l ∧ k ∈ l.map Prod.fst := by
  rw [groupPairs_eq] at h
  unfold groupSpec at h
  rw [List.mem_map] at h
  obtain ⟨k', hk', heq⟩ := h
  rw [Prod.ext_iff] at heq
  obtain ⟨h1, h2⟩ := heq
  simp only at h1 h2
  exact ⟨h1 ▸ h2.symm, h1 ▸ (mem_dedupFirst _ k').mp hk'⟩

theorem periodSurvivors_pos (pn rg gc pr : Chars) (today : Ymd) (items : List Item) :
    ∀ e ∈ periodSurvivors pn rg gc pr today items, 0 < e.price := by
  intro e he
  unfold periodSurvivors at he
  rw [List.mem_filterMap] at he
  obtain ⟨it, _, hsome⟩ := he
  exact periodSurvivor_pos pn rg gc pr today it e hsome

/-- Facts about the sorted date groups of the period path: every group's
value list is the complete, nonempty set of survivors carrying that date,
and all its prices are positive. -/
theorem period_groups_facts (pn rg gc pr : Chars) (today : Ymd) (items : List Item) :
    ∀ g ∈ sortBy dateKeyLe (groupPairs ((periodSurvivors pn rg gc pr today items).map
        (fun e => (e.dateStr, e)))),
      g.2 ≠ [] ∧ ∀ v ∈ g.2, v ∈ periodSurvivors pn rg gc pr today items ∧
        v.dateStr = g.1 ∧ 0 < v.price := by
  intro g hg
  have hpos := periodSurvivors_pos pn rg gc pr today items
  set sv := periodSurvivors pn rg gc pr today items with hsv
  set keyed := sv.map (fun e => (e.dateStr, e)) with hkeyed
  rw [mem_sortBy] at hg
  obtain ⟨hvs, hk⟩ := mem_groupPairs g.1 g.2 keyed (by simpa using hg)
  have hval : ∀ v ∈ g.2, v ∈ sv ∧ v.dateStr = g.1 ∧ 0 < v.price := by
    intro v hv
    rw [hvs, mem_lookupAll] at hv
    rw [hkeyed, List.mem_map] at hv
    obtain ⟨e, he, heq⟩ := hv
    rw [Prod.ext_iff] at heq
    obtain ⟨h1, h2⟩ := heq
    simp only at h1 h2
    subst h2
    exact ⟨he, h1, hpos e he⟩
  refine ⟨?_, hval⟩
  rw [hkeyed, List.map_map] at hk
  rw [List.mem_map] at hk
  obtain ⟨e, he, heq⟩ := hk
  simp only [Function.comp] at heq
  intro hnil
  have : e ∈ g.2 := by
    rw [hvs, mem_lookupAll, hkeyed, List.mem_map]
    exact ⟨e, he, by rw [heq]⟩
  rw [hnil] at this
  simp at this

theorem groupPairs_map_fst [DecidableEq κ] (l : List (κ × α)) :
    (groupPairs l).map Prod.fst = dedupFirst (l.map Prod.fst) := by
  rw [groupPairs_eq]
  unfold groupSpec
  rw [List.map_map]
  have : (Prod.fst ∘ fun k => ((k, lookupAll k l) : κ × List α)) = id := by
    funext k
    rfl
  rw [this, List.map_id]

theorem fetchPeriod_keys (partName region gradeCode : Chars) (today : Ymd)
    (items : List Item) :
    (fetchPeriodFromItems partName region gradeCode today items).map Prod.fst =
      sortBy lexLe (dedupFirst ((periodSurvivors partName region gradeCode
        (periodRankCode partName gradeCode) today items).map PEntry.dateStr)) := by
  have hfacts := period_groups_facts partName region gradeCode
    (periodRankCode partName gradeCode) today items
  unfold fetchPeriodFromItems
  rw [← map_sortBy (fun a b => lexLe a.1 b.1) lexLe Prod.fst (fun a b => rfl)]
  rw [periodEmit_keys _ _ (fun g hg => (hfacts g hg).1)
    (fun g hg v hv => ((hfacts g hg).2 v hv).2.2)]
  rw [← map_sortBy dateKeyLe lexLe Prod.fst (fun a b => rfl)]
  rw [sortBy_idem lexLe lexLe_total lexLe_trans]
  rw [groupPairs_map_fst, List.map_map]
  rfl

/-- Every sorted `defaultdict` group carries exactly the values stored under
its key, and is nonempty. -/
theorem sorted_groups_facts [DecidableEq κ] (le : (κ × List α) → (κ × List α) → Bool)
    (l : List (κ × α)) :
    ∀ g ∈ sortBy le (groupPairs l),
      g.2 = lookupAll g.1 l ∧ g.2 ≠ [] ∧ g.1 ∈ l.map Prod.fst := by
  intro g hg
  rw [mem_sortBy] at hg
  obtain ⟨hvs, hk⟩ := mem_groupPairs g.1 g.2 l (by simpa using hg)
  refine ⟨hvs, ?_, hk⟩
  rw [List.mem_map] at hk
  obtain ⟨p, hp, hfst⟩ := hk
  intro hnil
  have : p.2 ∈ g.2 := by
    rw [hvs, mem_lookupAll, ← hfst]
    exact Prod.mk.eta ▸ hp
  rw [hnil] at this
  simp at this

theorem filterMap_all_some_length (f : α → Option β) (l : List α)
    (h : ∀ a ∈ l, (f a).isSome) : (l.filterMap f).length = l.length := by
  induction l with
  | nil => rfl
  | cons x xs ih =>
    cases hf : f x with
    | none =>
      have := h x (List.mem_cons_self x xs)
      rw [hf] at this
      simp at this
    | some b =>
      rw [List.filterMap_cons, hf]
      simp only [List.length_cons]
      rw [ih (fun a ha => h a (List.mem_cons_of_mem x ha))]

theorem aggGradeEntriesOf_date (region : Chars) (t : Ymd) (hv : validYmd t)
    (p1 p2 p3 : Option (List Item)) :
    ∀ e ∈ aggGradeEntriesOf (p1.bind (fetchSingleFromItems region (renderYmd t)))
        (p2.bind (fetchSingleFromItems region (renderYmd t)))
        (p3.bind (fetchSingleFromItems region (renderYmd t))),
      parseYmd e.priceDate = some t := by
  intro e he
  unfold aggGradeEntriesOf at he
  rw [List.mem_filterMap] at he
  obtain ⟨p, hp, hmap⟩ := he
  rw [Option.map_eq_some'] at hmap
  obtain ⟨pd, hpd, hee⟩ := hmap
  have hdate : ∀ q : Option (List Item),
      q.bind (fetchSingleFromItems region (renderYmd t)) = some pd →
      parseYmd pd.2 = some t := by
    intro q hq
    rw [Option.bind_eq_some] at hq
    obtain ⟨items, _, hfetch⟩ := hq
    exact fetchSingleFromItems_date region t hv items pd.1 pd.2
      (by rw [← Prod.mk.eta (p := pd)] at hfetch; exact hfetch)
  simp only [List.mem_cons, List.not_mem_nil, or_false] at hp
  rcases hp with rfl | rfl | rfl
  · rw [← hee]; exact hdate p1 hpd
  · rw [← hee]; exact hdate p2 hpd
  · rw [← hee]; exact hdate p3 hpd

/-- C10: every non-`None` result of the single-price fetch
(`_fetch_kamis_price_single`) carries a date equal to the target day
(yesterday relative to request time, apis.py lines 509-511): a feed date
that fails to parse or parses to any other day — earlier or later — is
replaced by the target day (lines 912-923), so the current-price path never
reports a price date other than yesterday. -/
theorem c10_single_fetch_date_is_target (region : Chars) (today : Ymd)
    (hv : validYmd (predYmd today)) (items : List Item) (p : Int) (d : Chars)
    (hf : fetchSingleFromItems region (renderYmd (predYmd today)) items = some (p, d)) :
    parseYmd d = some (predYmd today) :=
  fetchSingleFromItems_date region (predYmd today) hv items p d hf

/-- Witness for C10 at a concrete feed item whose reported date `10/10`
differs from the target day 2025-10-11: the result date is the target day. -/
theorem c10_witness :
    validYmd (predYmd ⟨2025, 10, 12⟩) ∧ parseYmd (cs ("2025-10-11")) = some (predYmd ⟨2025, 10, 12⟩) :=
  ⟨by decide, c10_single_fetch_date_is_target (cs ("전국")) ⟨2025, 10, 12⟩ (by decide)
    [{ countyname := some (cs ("평균")), price := some (cs ("100")), regday := some (cs ("10/10")) }]
    100 (cs ("2025-10-11")) (by decide)⟩

/-- C3: on a successful all-grades aggregation the representative date is
the most recent (maximum) of the resolved grades' dates — it is among them
and bounds them all from above.  (In the code every resolved date has been
coerced to the target day by `_fetch_kamis_price_single`, so
`grade_prices[0]["priceDate"]` at apis.py line 582 coincides with the
maximum.) -/
theorem c3_agg_date_is_max (region : Chars) (today : Ymd)
    (hv : validYmd (predYmd today)) (p1 p2 p3 : Option (List Item)) (r : AggOut)
    (h : fetchKamisAllGradesAt today region p1 p2 p3 = Except.ok r) :
    r.price_date ∈ r.gradePrices.map GradeEntry.priceDate ∧
    ∀ ds ∈ r.gradePrices.map GradeEntry.priceDate,
      ∃ a b : Ymd, parseYmd ds = some a ∧ parseYmd r.price_date = some b ∧
        toDayNum a ≤ toDayNum b := by
  have hdates := aggGradeEntriesOf_date region (predYmd today) hv p1 p2 p3
  unfold fetchKamisAllGradesAt fetchKamisAllGrades at h
  cases hagg : aggGradeEntriesOf
      (p1.bind (fetchSingleFromItems region (renderYmd (predYmd today))))
      (p2.bind (fetchSingleFromItems region (renderYmd (predYmd today))))
      (p3.bind (fetchSingleFromItems region (renderYmd (predYmd today)))) with
  | nil => rw [hagg] at h; exact absurd h (by simp)
  | cons gp rest =>
    rw [hagg] at h
    simp only [Except.ok.injEq] at h
    rw [← h]
    constructor
    · simp
    · intro ds hds
      simp only [List.mem_map] at hds
      obtain ⟨e, he, hde⟩ := hds
      have he2 : parseYmd e.priceDate = some (predYmd today) := by
        apply hdates
        rw [hagg]
        exact he
      have hgp : parseYmd gp.priceDate = some (predYmd today) := by
        apply hdates
        rw [hagg]
        exact List.mem_cons_self gp rest
      exact ⟨predYmd today, predYmd today, hde ▸ he2, hgp, le_refl _⟩

/-- Witness for C3 at two resolved grades (prices 100 and 201, both dated
the target day 2025-10-11). -/
theorem c3_witness :
    validYmd (predYmd ⟨2025, 10, 12⟩) ∧
    ((cs ("2025-10-11")) ∈ [GradeEntry.mk (cs ("1++등급")) 100 (cs ("2025-10-11")),
        GradeEntry.mk (cs ("1+등급")) 201 (cs ("2025-10-11"))].map GradeEntry.priceDate ∧
      ∀ ds ∈ [GradeEntry.mk (cs ("1++등급")) 100 (cs ("2025-10-11")),
          GradeEntry.mk (cs ("1+등급")) 201 (cs ("2025-10-11"))].map GradeEntry.priceDate,
        ∃ a b : Ymd, parseYmd ds = some a ∧ parseYmd (cs ("2025-10-11")) = some b ∧
          toDayNum a ≤ toDayNum b) :=
  ⟨by decide,
    c3_agg_date_is_max (cs ("전국")) ⟨2025, 10, 12⟩ (by decide)
      (some [{ countyname := some (cs ("평균")), price := some (cs ("100")), yyyy := some (cs ("2025")), regday := some (cs ("10/11")) }])
      (some [{ countyname := some (cs ("평균")), price := some (cs ("201")), yyyy := some (cs ("2025")), regday := some (cs ("10/11")) }])
      none
      ⟨150, cs ("2025-10-11"), [GradeEntry.mk (cs ("1++등급")) 100 (cs ("2025-10-11")),
        GradeEntry.mk (cs ("1+등급")) 201 (cs ("2025-10-11"))]⟩
      (by decide)⟩


/-- C9: a current-price request for domestic beef (part name starting
"Beef_" and not "Import_Beef_") with grade code "00" gets no cache
candidate at all (`_get_from_db_cache` returns `None`, price_service.py
lines 120-123), so it is never served from cache — neither as a fresh hit
nor as a stale fallback after a feed failure — and any successful result
comes from the feed pipeline (source `api`). -/
theorem c9_beef_all_grades_never_cached (db : List MarketPriceRow) (today : Ymd)
    (partName region gradeCode : Chars) (api : KamisOutcome) (r : FetchOut)
    (hbeef : (cs ("Beef_")).isPrefixOf partName = true)
    (hnotimp : (cs ("Import_Beef_")).isPrefixOf partName = false)
    (hgrade : gradeCode = cs ("00")) :
    getFromDbCache db partName region today gradeCode = none ∧
    (fetchCurrentPrice today (some db) partName region gradeCode api = Except.ok r →
      r.source = Src.api) := by
  have hc : getFromDbCache db partName region today gradeCode = none := by
    unfold getFromDbCache
    rw [hbeef, hnotimp, hgrade]
    simp
  refine ⟨hc, ?_⟩
  intro h
  unfold fetchCurrentPrice at h
  simp only [Option.some_bind, hc, cacheFreshHit] at h
  cases api with
  | success p d =>
    simp only [cacheFallback] at h
    by_cases hp : p > 0
    · rw [if_pos hp] at h
      simp only [Except.ok.injEq] at h
      rw [← h]
    · rw [if_neg hp] at h
      exact absurd h (by simp)
  | httpExc status => exact absurd h (by simp)
  | otherExc =>
    simp only [cacheFallback] at h
    exact absurd h (by simp)

/-- Witness for C9: domestic beef ribeye, grade "00", with a cached row
present for the specific grades; no cache candidate, and a successful API
outcome is tagged `api`. -/
theorem c9_witness :
    getFromDbCache [⟨cs ("Beef_Ribeye"), cs ("전국"), cs ("01"), ⟨2025, 10, 11⟩, 9000⟩]
        (cs ("Beef_Ribeye")) (cs ("전국")) ⟨2025, 10, 12⟩ (cs ("00")) = none ∧
    (fetchCurrentPrice ⟨2025, 10, 12⟩
        (some [⟨cs ("Beef_Ribeye"), cs ("전국"), cs ("01"), ⟨2025, 10, 11⟩, 9000⟩])
        (cs ("Beef_Ribeye")) (cs ("전국")) (cs ("00"))
        (KamisOutcome.success 9000 (cs ("2025-10-11"))) =
        Except.ok ⟨9000, cs ("2025-10-11"), Src.api⟩ →
      (FetchOut.mk 9000 (cs ("2025-10-11")) Src.api).source = Src.api) :=
  c9_beef_all_grades_never_cached
    [⟨cs ("Beef_Ribeye"), cs ("전국"), cs ("01"), ⟨2025, 10, 11⟩, 9000⟩]
    ⟨2025, 10, 12⟩ (cs ("Beef_Ribeye")) (cs ("전국")) (cs ("00"))
    (KamisOutcome.success 9000 (cs ("2025-10-11")))
    ⟨9000, cs ("2025-10-11"), Src.api⟩ (by decide) (by decide) rfl

/-- C1: the claim (return the stale cached value tagged cache when the
refresh pipeline fails) is right and the code is wrong: all KAMIS pipeline
failures surface as `HTTPException` (503 FeedUnavailable, 502 format
errors, 404), and `fetch_current_price` re-raises them (`except
HTTPException: raise`, price_service.py lines 57-58) *before* the stale
fallback of step 3 (lines 62-64) — contradicting the code's own comments at
lines 44 and 62 ("keep the old cache so it can be used when the API call
fails").  At this concrete input a stale cached candidate exists (7 days
old, within the 7-day retention), the pipeline fails with 503, and the call
raises 503 instead of returning the cache. -/
theorem c1_stale_fallback_unreachable :
    getFromDbCache [⟨cs ("Pork_Belly"), cs ("전국"), [], ⟨2025, 10, 5⟩, 2500⟩]
        (cs ("Pork_Belly")) (cs ("전국")) ⟨2025, 10, 12⟩ (cs ("00")) =
      some ⟨2500, cs ("2025-10-05")⟩ ∧
    cacheFreshHit ⟨2025, 10, 12⟩ (some ⟨2500, cs ("2025-10-05")⟩) = none ∧
    fetchCurrentPrice ⟨2025, 10, 12⟩
        (some [⟨cs ("Pork_Belly"), cs ("전국"), [], ⟨2025, 10, 5⟩, 2500⟩])
        (cs ("Pork_Belly")) (cs ("전국")) (cs ("00")) (KamisOutcome.httpExc 503) =
      Except.error 503 ∧
    cacheFallback (some [⟨cs ("Pork_Belly"), cs ("전국"), [], ⟨2025, 10, 5⟩, 2500⟩])
        (some ⟨2500, cs ("2025-10-05")⟩) =
      Except.ok ⟨2500, cs ("2025-10-05"), Src.cache⟩ := by
  refine ⟨by decide, by decide, by decide, by decide⟩

theorem splitOn_no_sep (c : Char) (b : Chars) (h : c ∉ b) : splitOn c b = [b] := by
  induction b with
  | nil => rfl
  | cons x xs ih =>
    rw [List.mem_cons, not_or] at h
    rw [splitOn, ih h.2, if_neg (fun hxc => h.1 hxc.symm)]

theorem splitOn_append (c : Char) (a b : Chars) (h : c ∉ a) :
    splitOn c (a ++ c :: b) = a :: splitOn c b := by
  induction a with
  | nil =>
    show splitOn c (c :: b) = [] :: splitOn c b
    rw [splitOn, if_pos rfl]
  | cons x xs ih =>
    rw [List.mem_cons, not_or] at h
    show splitOn c (x :: (xs ++ c :: b)) = (x :: xs) :: splitOn c b
    rw [splitOn, ih h.2, if_neg (fun hxc => h.1 hxc.symm)]

theorem containsChar_append_sep (c : Char) (a b : Chars) :
    containsChar (a ++ c :: b) c = true := by
  unfold containsChar
  simp

/-- C2 counterexample: on the current-price path, a `MM/DD` observation
(`regday = "03/05"`) accompanied by the year field `yyyy = "2023"` is
normalized using the target day's year 2025, not the supplied 2023
(apis.py lines 896-903 prefer `target_year`); the mismatch with the target
day then replaces the whole date by the target day.  The claim — the
normalized year equals the supplied year field on both paths — is false. -/
theorem c2_counterexample :
    fetchSingleFromItems (cs ("전국")) (cs ("2025-10-11"))
        [{ countyname := some (cs ("평균")), price := some (cs ("100")),
           yyyy := some (cs ("2023")), regday := some (cs ("03/05")) }] =
      some (100, cs ("2025-10-11")) ∧
    singleShapeDate (cs ("2023")) (cs ("03/05")) (cs ("2025-10-11")) =
      some (cs ("2025-03-05")) ∧
    parseYmd (cs ("2025-10-11")) = some ⟨2025, 10, 11⟩ ∧ (2025 : Nat) ≠ 2023 := by
  refine ⟨by decide, by decide, by decide, by decide⟩

/-- C2 (amended): only the period path honours the supplied year field —
`fetch_kamis_price_period` (lines 1208-1212) builds `yyyy-MM-DD`, whose
first four characters are the supplied year; the current-price path
(`_fetch_kamis_price_single`, lines 896-903) instead uses the target day's
first four characters as the year whenever the target day is non-empty and
at least 4 characters long (always, in practice), using the `yyyy` field
only as a fallback. -/
theorem c2_amended (yyyy mm dd targetDay : Chars)
    (hy : yyyy ≠ []) (hylen : yyyy.length = 4)
    (hmm : '/' ∉ mm) (hdd : '/' ∉ dd)
    (ht : targetDay ≠ [] ∧ 4 ≤ targetDay.length) :
    periodShapeDate yyyy (mm ++ '/' :: dd) =
      some (yyyy ++ '-' :: zfill2 mm ++ '-' :: zfill2 dd) ∧
    (yyyy ++ '-' :: zfill2 mm ++ '-' :: zfill2 dd).take 4 = yyyy ∧
    singleShapeDate yyyy (mm ++ '/' :: dd) targetDay =
      some (targetDay.take 4 ++ '-' :: zfill2 mm ++ '-' :: zfill2 dd) := by
  have hsplit : splitOn '/' (mm ++ '/' :: dd) = [mm, dd] := by
    rw [splitOn_append '/' mm dd hmm, splitOn_no_sep '/' dd hdd]
  refine ⟨?_, ?_, ?_⟩
  · unfold periodShapeDate
    rw [containsChar_append_sep, if_pos rfl, hsplit]
    simp only [if_pos hy]
  · rw [← hylen]
    have : yyyy ++ '-' :: zfill2 mm ++ '-' :: zfill2 dd =
        yyyy ++ ('-' :: zfill2 mm ++ '-' :: zfill2 dd) := by simp
    rw [this, List.take_left]
  · unfold singleShapeDate
    rw [containsChar_append_sep, if_pos rfl, hsplit]
    unfold targetYearOf
    rw [if_pos ht]

/-- Witness for C2 (amended) at `yyyy = "2024"`, `MM/DD = 3/7`,
`targetDay = "2025-10-11"`. -/
theorem c2_witness :
    periodShapeDate (cs ("2024")) (cs ("3") ++ '/' :: cs ("7")) =
      some (cs ("2024") ++ '-' :: zfill2 (cs ("3")) ++ '-' :: zfill2 (cs ("7"))) ∧
    (cs ("2024") ++ '-' :: zfill2 (cs ("3")) ++ '-' :: zfill2 (cs ("7"))).take 4 = cs ("2024") ∧
    singleShapeDate (cs ("2024")) (cs ("3") ++ '/' :: cs ("7")) (cs ("2025-10-11")) =
      some ((cs ("2025-10-11")).take 4 ++ '-' :: zfill2 (cs ("3")) ++ '-' :: zfill2 (cs ("7"))) :=
  c2_amended (cs ("2024")) (cs ("3")) (cs ("7")) (cs ("2025-10-11"))
    (by decide) (by decide) (by decide) (by decide) ⟨by decide, by decide⟩

/-- C4 counterexample: two observations for region 서울, same priority
(both exact-region rows), the second with a strictly later date (10/11 vs
10/10) and a strictly larger price (200 vs 100).  The claimed order
(priority asc, date desc, price desc) — `specOrderSelect`, modelled from
the spec — picks the second; the code's selection loop picks the first (it
only compares priorities, with first-in-feed-order tie-breaking, apis.py
lines 830-859), so the fetched price is 100, not 200. -/
theorem c4_counterexample :
    selectBestItem (cs ("서울"))
        [{ countyname := some (cs ("서울")), price := some (cs ("100")), regday := some (cs ("10/10")) },
         { countyname := some (cs ("서울")), price := some (cs ("200")), regday := some (cs ("10/11")) }] =
      some { countyname := some (cs ("서울")), price := some (cs ("100")), regday := some (cs ("10/10")) } ∧
    specOrderSelect (cs ("서울")) (cs ("2025-10-11"))
        [{ countyname := some (cs ("서울")), price := some (cs ("100")), regday := some (cs ("10/10")) },
         { countyname := some (cs ("서울")), price := some (cs ("200")), regday := some (cs ("10/11")) }] =
      some { countyname := some (cs ("서울")), price := some (cs ("200")), regday := some (cs ("10/11")) } ∧
    ({ countyname := some (cs ("서울")), price := some (cs ("100")), regday := some (cs ("10/10")) } : Item) ≠
      { countyname := some (cs ("서울")), price := some (cs ("200")), regday := some (cs ("10/11")) } ∧
    fetchSingleFromItems (cs ("서울")) (cs ("2025-10-11"))
        [{ countyname := some (cs ("서울")), price := some (cs ("100")), regday := some (cs ("10/10")) },
         { countyname := some (cs ("서울")), price := some (cs ("200")), regday := some (cs ("10/11")) }] =
      some (100, cs ("2025-10-11")) := by
  refine ⟨by decide, by decide, by decide, by decide⟩

/-- C4 (amended): the single-path selector is the first region-surviving
observation of priority 1 (exact region) in feed order if any exists, else
the first region-surviving observation (an average row); dates and prices
are never consulted, and `None` (surfacing as NotFound) is returned exactly
when the region filter leaves nothing.  Determinism holds (the selection is
a function of the observation list). -/
theorem c4_amended (region : Chars) (items : List Item) :
    selectBestItem region items =
      (match (items.filter (passesRegionSingle region)).find?
          (fun it => itemPrioritySingle it == 1) with
       | some it => some it
       | none => (items.filter (passesRegionSingle region)).head?) ∧
    (selectBestItem region items = none ↔ items.filter (passesRegionSingle region) = []) := by
  refine ⟨selectBestItem_eq region items, ?_⟩
  rw [selectBestItem_eq region items]
  cases hf : items.filter (passesRegionSingle region) with
  | nil => simp
  | cons x xs =>
    simp only [List.head?_cons]
    constructor
    · intro h
      cases hfind : (x :: xs).find? (fun it => itemPrioritySingle it == 1) with
      | none => rw [hfind] at h; simp at h
      | some it => rw [hfind] at h; simp at h
    · intro h
      exact absurd h (by simp)

/-- C5 counterexample: a well-formed payload carrying the explicit non-zero
error code "200" (and even an `item` node) is extracted to the empty item
list on the single-price path — exactly like a well-formed payload with
error code "000" and no data — so the fetch yields `None` and surfaces as
NotFound (404); no distinct FeedLogicError carrying the code exists
anywhere in the code.  (The period path even recovers the item through its
recursive `_collect_items` fallback, ignoring the error code.) -/
theorem c5_counterexample :
    extractItemsSingle (JVal.obj [("document", JVal.obj [("data", JVal.obj
        [("error_code", JVal.s (cs ("200"))),
         ("item", JVal.obj [("price", JVal.s (cs ("5000")))])])])]) = [] ∧
    extractItemsSingle (JVal.obj [("document", JVal.obj [("data", JVal.obj
        [("error_code", JVal.s (cs ("000")))])])]) = [] ∧
    extractItemsPeriod (JVal.obj [("document", JVal.obj [("data", JVal.obj
        [("error_code", JVal.s (cs ("200"))),
         ("item", JVal.obj [("price", JVal.s (cs ("5000")))])])])]) =
      [JVal.obj [("price", JVal.s (cs ("5000")))]] :=
  ⟨rfl, rfl, rfl⟩

/-- C5 (amended): for every document-shaped payload whose `data` node
carries a non-zero error code, the single-path extraction yields the empty
item list — indistinguishable from a no-data payload, so the single fetch
returns `None` and the caller raises NotFound; there is no separate failure
class.  The period-path extraction instead falls back to the recursive
`_collect_items` search over the document, ignoring the error code. -/
theorem c5_amended (docFields : List (String × JVal)) (data : JVal) (code : Chars)
    (hdoc : docFields ≠ [])
    (hdata : (docFields.find? (fun p => p.1 = "data")).map Prod.snd = some data)
    (hobj : isObj data = true)
    (hcode : jgetObj data "error_code" = some (JVal.s code))
    (h0 : code ≠ cs ("0")) (h000 : code ≠ cs ("000")) :
    extractItemsSingle (JVal.obj [("document", JVal.obj docFields)]) = [] ∧
    extractItemsPeriod (JVal.obj [("document", JVal.obj docFields)]) =
      collectItems (JVal.obj docFields) := by
  have hdocget : jgetObj (JVal.obj [("document", JVal.obj docFields)]) "document" =
      some (JVal.obj docFields) := rfl
  have hdocOf : documentOf (JVal.obj [("document", JVal.obj docFields)]) =
      JVal.obj docFields := by
    unfold documentOf
    rw [hdocget]
    simp [truthyJ, hdoc]
  have hdataget : jgetObj (JVal.obj docFields) "data" = some data := hdata
  have hdataItems : dataItems data = [] := by
    unfold dataItems errorCodeStr
    rw [if_pos hobj, hcode]
    simp [h0, h000]
  have hpath1 : extractSinglePath1 (JVal.obj [("document", JVal.obj docFields)]) = [] := by
    unfold extractSinglePath1
    rw [if_pos (by rw [hasKey, hdocget]; rfl), hdocOf, hdataget]
    exact hdataItems
  have hpath2 : extractPath2 (JVal.obj [("document", JVal.obj docFields)]) = [] := rfl
  have hpath3 : extractPath3 (JVal.obj [("document", JVal.obj docFields)]) = [] := rfl
  constructor
  · unfold extractItemsSingle
    rw [hpath1, hpath2, hpath3]
    rfl
  · unfold extractItemsPeriod extractPeriodPath1
    rw [if_pos (by rw [hasKey, hdocget]; rfl), hdocOf, hdataget, hpath2, hpath3]
    simp only [Option.getD_some, hdataItems]
    unfold orElseList
    cases hcol : collectItems (JVal.obj docFields) with
    | nil => simp [hcol]
    | cons y ys => simp

/-- Witness for C5 (amended) at the concrete error payload of the
counterexample. -/
theorem c5_witness :
    extractItemsSingle (JVal.obj [("document", JVal.obj [("data", JVal.obj
        [("error_code", JVal.s (cs ("200"))),
         ("item", JVal.obj [("price", JVal.s (cs ("5000")))])])])]) = [] ∧
    extractItemsPeriod (JVal.obj [("document", JVal.obj [("data", JVal.obj
        [("error_code", JVal.s (cs ("200"))),
         ("item", JVal.obj [("price", JVal.s (cs ("5000")))])])])]) =
      collectItems (JVal.obj [("data", JVal.obj
        [("error_code", JVal.s (cs ("200"))),
         ("item", JVal.obj [("price", JVal.s (cs ("5000")))])])]) :=
  c5_amended [("data", JVal.obj [("error_code", JVal.s (cs ("200"))),
      ("item", JVal.obj [("price", JVal.s (cs ("5000")))])])]
    (JVal.obj [("error_code", JVal.s (cs ("200"))),
      ("item", JVal.obj [("price", JVal.s (cs ("5000")))])])
    (cs ("200")) (by simp) rfl rfl rfl (by decide) (by decide)

/-- C6 counterexample: a pork-belly period query whose feed reports prices
only for 2025-01-01 (100) and 2025-01-04 (130) — days 2 and 3 missing —
produces the two-point series [(2025-01-01, 100), (2025-01-04, 130)].  The
missing days are absent, not carried forward: the claimed resolved series
[100, 100, 100, 130] does not occur (non-positive prices never enter the
per-date buckets, so the forward-fill branch of apis.py lines 1270-1272 can
never fire, and days without feed rows are never emitted at all). -/
theorem c6_counterexample :
    fetchPeriodFromItems (cs ("Pork_Belly")) (cs ("전국")) (cs ("00")) ⟨2025, 1, 5⟩
        [{ countyname := some (cs ("평균")), price := some (cs ("100")),
           yyyy := some (cs ("2025")), regday := some (cs ("01/01")) },
         { countyname := some (cs ("평균")), price := some (cs ("130")),
           yyyy := some (cs ("2025")), regday := some (cs ("01/04")) }] =
      [(cs ("2025-01-01"), 100), (cs ("2025-01-04"), 130)] := by
  decide

/-- C6 (amended): the daily series contains exactly the distinct dates of
the surviving feed observations (sorted ascending) — a day the feed omits
is absent from the series, never synthesized — and every emitted price is
the price of one of that day's own surviving observations (always
positive); no forward-fill of gaps occurs. -/
theorem c6_amended (partName region gradeCode : Chars) (today : Ymd) (items : List Item) :
    (fetchPeriodFromItems partName region gradeCode today items).map Prod.fst =
      sortBy lexLe (dedupFirst ((periodSurvivors partName region gradeCode
        (periodRankCode partName gradeCode) today items).map PEntry.dateStr)) ∧
    ∀ pr ∈ fetchPeriodFromItems partName region gradeCode today items,
      ∃ e ∈ periodSurvivors partName region gradeCode (periodRankCode partName gradeCode)
          today items, e.dateStr = pr.1 ∧ e.price = pr.2 ∧ 0 < pr.2 := by
  refine ⟨fetchPeriod_keys partName region gradeCode today items, ?_⟩
  intro pr hpr
  have hfacts := period_groups_facts partName region gradeCode
    (periodRankCode partName gradeCode) today items
  unfold fetchPeriodFromItems at hpr
  rw [mem_sortBy] at hpr
  obtain ⟨g, hg, hfst, v, hv, hprice⟩ := periodEmit_mem _ _
    (fun g hg v hv => ((hfacts g hg).2 v hv).2.2) pr hpr
  obtain ⟨hvsv, hvdate, hvpos⟩ := (hfacts g hg).2 v hv
  exact ⟨v, hvsv, by rw [hvdate, hfst], by rw [hprice], by rw [hprice]; exact hvpos⟩

/-- Witness for C6 (amended): at the concrete two-day pork scenario, the
emitted point for 2025-01-01 stems from a surviving observation of that
exact day with price 100. -/
theorem c6_witness :
    ∃ e ∈ periodSurvivors (cs ("Pork_Belly")) (cs ("전국")) (cs ("00"))
        (periodRankCode (cs ("Pork_Belly")) (cs ("00"))) ⟨2025, 1, 5⟩
        [{ countyname := some (cs ("평균")), price := some (cs ("100")),
           yyyy := some (cs ("2025")), regday := some (cs ("01/01")) },
         { countyname := some (cs ("평균")), price := some (cs ("130")),
           yyyy := some (cs ("2025")), regday := some (cs ("01/04")) }],
      e.dateStr = (cs ("2025-01-01"), (100 : Int)).1 ∧
      e.price = (cs ("2025-01-01"), (100 : Int)).2 ∧ 0 < (cs ("2025-01-01"), (100 : Int)).2 :=
  (c6_amended (cs ("Pork_Belly")) (cs ("전국")) (cs ("00")) ⟨2025, 1, 5⟩
    [{ countyname := some (cs ("평균")), price := some (cs ("100")),
       yyyy := some (cs ("2025")), regday := some (cs ("01/01")) },
     { countyname := some (cs ("평균")), price := some (cs ("130")),
       yyyy := some (cs ("2025")), regday := some (cs ("01/04")) }]).2
    (cs ("2025-01-01"), 100) (by decide)

theorem aggOut_facts (r1 r2 r3 : Option (Int × Chars)) :
    (aggGradeEntriesOf r1 r2 r3 = [] ↔ (r1 = none ∧ r2 = none ∧ r3 = none)) ∧
    (aggGradeEntriesOf r1 r2 r3).map GradeEntry.price =
      ([r1, r2, r3].filterMap id).map Prod.fst := by
  cases r1 <;> cases r2 <;> cases r3 <;> simp [aggGradeEntriesOf]

/-- C7 counterexample: with two grades resolving to prices 100 and 201 (and
the third failing), the call succeeds with a 2-entry breakdown but the
aggregate price is 150 = int((100+201)/2), which is **not** the unweighted
arithmetic mean 150.5 — `int(avg_price)` at apis.py line 581 truncates. -/
theorem c7_counterexample :
    fetchKamisAllGrades (cs ("전국")) (cs ("2025-10-11"))
        (some [{ countyname := some (cs ("평균")), price := some (cs ("100")),
                 yyyy := some (cs ("2025")), regday := some (cs ("10/11")) }])
        (some [{ countyname := some (cs ("평균")), price := some (cs ("201")),
                 yyyy := some (cs ("2025")), regday := some (cs ("10/11")) }])
        none =
      Except.ok ⟨150, cs ("2025-10-11"),
        [GradeEntry.mk (cs ("1++등급")) 100 (cs ("2025-10-11")),
         GradeEntry.mk (cs ("1+등급")) 201 (cs ("2025-10-11"))]⟩ ∧
    ¬ ((150 : Rat) = ((100 : Rat) + 201) / 2) :=
  ⟨by decide, by norm_num⟩

/-- C7 (amended): the all-grades aggregation signals NotFound (404) iff
zero grades resolve; on success the breakdown lists exactly the resolved
grades in order (their prices, in order, are the resolved prices) and the
aggregate price is the integer truncation of the unweighted arithmetic mean
`int(sum/len)` — not, in general, the exact mean. -/
theorem c7_amended (region targetDay : Chars) (p1 p2 p3 : Option (List Item)) :
    (fetchKamisAllGrades region targetDay p1 p2 p3 = Except.error 404 ↔
      (p1.bind (fetchSingleFromItems region targetDay) = none ∧
       p2.bind (fetchSingleFromItems region targetDay) = none ∧
       p3.bind (fetchSingleFromItems region targetDay) = none)) ∧
    ∀ r, fetchKamisAllGrades region targetDay p1 p2 p3 = Except.ok r →
      r.gradePrices = aggGradeEntriesOf (p1.bind (fetchSingleFromItems region targetDay))
        (p2.bind (fetchSingleFromItems region targetDay))
        (p3.bind (fetchSingleFromItems region targetDay)) ∧
      r.gradePrices.map GradeEntry.price =
        ([p1.bind (fetchSingleFromItems region targetDay),
          p2.bind (fetchSingleFromItems region targetDay),
          p3.bind (fetchSingleFromItems region targetDay)].filterMap id).map Prod.fst ∧
      r.gradePrices ≠ [] ∧
      r.currentPrice = pyTruncDiv (r.gradePrices.map GradeEntry.price).sum
        r.gradePrices.length := by
  have hfacts := aggOut_facts (p1.bind (fetchSingleFromItems region targetDay))
    (p2.bind (fetchSingleFromItems region targetDay))
    (p3.bind (fetchSingleFromItems region targetDay))
  constructor
  · unfold fetchKamisAllGrades
    cases hagg : aggGradeEntriesOf (p1.bind (fetchSingleFromItems region targetDay))
        (p2.bind (fetchSingleFromItems region targetDay))
        (p3.bind (fetchSingleFromItems region targetDay)) with
    | nil =>
      rw [← hfacts.1, hagg]
      simp
    | cons gp rest =>
      rw [← hfacts.1, hagg]
      simp
  · intro r hr
    unfold fetchKamisAllGrades at hr
    cases hagg : aggGradeEntriesOf (p1.bind (fetchSingleFromItems region targetDay))
        (p2.bind (fetchSingleFromItems region targetDay))
        (p3.bind (fetchSingleFromItems region targetDay)) with
    | nil => rw [hagg] at hr; exact absurd hr (by simp)
    | cons gp rest =>
      rw [hagg] at hr
      simp only [Except.ok.injEq] at hr
      rw [← hr]
      refine ⟨rfl, ?_, by simp, rfl⟩
      rw [← hfacts.2, hagg]

/-- Witness for C7 (amended) at the concrete 100/201 scenario. -/
theorem c7_witness :
    (AggOut.mk 150 (cs ("2025-10-11"))
        [GradeEntry.mk (cs ("1++등급")) 100 (cs ("2025-10-11")),
         GradeEntry.mk (cs ("1+등급")) 201 (cs ("2025-10-11"))]).gradePrices ≠ [] ∧
    (AggOut.mk 150 (cs ("2025-10-11"))
        [GradeEntry.mk (cs ("1++등급")) 100 (cs ("2025-10-11")),
         GradeEntry.mk (cs ("1+등급")) 201 (cs ("2025-10-11"))]).currentPrice =
      pyTruncDiv (((AggOut.mk 150 (cs ("2025-10-11"))
          [GradeEntry.mk (cs ("1++등급")) 100 (cs ("2025-10-11")),
           GradeEntry.mk (cs ("1+등급")) 201 (cs ("2025-10-11"))]).gradePrices.map
            GradeEntry.price).sum)
        ((AggOut.mk 150 (cs ("2025-10-11"))
          [GradeEntry.mk (cs ("1++등급")) 100 (cs ("2025-10-11")),
           GradeEntry.mk (cs ("1+등급")) 201 (cs ("2025-10-11"))]).gradePrices.length) :=
  ((c7_amended (cs ("전국")) (cs ("2025-10-11"))
      (some [{ countyname := some (cs ("평균")), price := some (cs ("100")),
               yyyy := some (cs ("2025")), regday := some (cs ("10/11")) }])
      (some [{ countyname := some (cs ("평균")), price := some (cs ("201")),
               yyyy := some (cs ("2025")), regday := some (cs ("10/11")) }])
      none).2
    (AggOut.mk 150 (cs ("2025-10-11"))
      [GradeEntry.mk (cs ("1++등급")) 100 (cs ("2025-10-11")),
       GradeEntry.mk (cs ("1+등급")) 201 (cs ("2025-10-11"))]) (by decide)).2.2

theorem lookupAll_week (yN : Nat) (valid : List (Nat × Int)) (w : Nat × Nat) :
    lookupAll w (valid.map (fun p => (weekKeyOf yN p.1, p.2))) =
      (valid.filter (fun p => weekKeyOf yN p.1 = w)).map Prod.snd := by
  unfold lookupAll
  rw [List.filter_map, List.map_map]
  rfl

/-- C8 counterexample: a two-day series in one ISO week (Monday 2025-01-06
price 100, Tuesday 2025-01-07 price 101, today 2025-01-10) yields a single
WeeklyPoint with price 100 = int(201/2), which is **not** the mean 100.5 of
that week's prices — `int(sum/len)` at dashboard.py line 239 truncates.
(739257 is the proleptic-Gregorian day number of Monday 2025-01-06; 739260
is 2025-01-09, yesterday.) -/
theorem c8_counterexample :
    aggregateDailyByWeek ⟨2025, 1, 10⟩
        [(cs ("2025-01-06"), 100), (cs ("2025-01-07"), 101)] =
      [⟨739257, 739260, 100⟩] ∧
    ¬ ((100 : Rat) = ((100 : Rat) + 101) / 2) :=
  ⟨by decide, by norm_num⟩

/-- C8 (amended): the weekly bucketizer emits exactly one WeeklyPoint per
ISO week (Monday start) containing at least one valid observation — empty
weeks are omitted, never emitted as zero-price points — and each point's
price is the integer truncation `int(sum/len)` of that week's prices (not,
in general, the exact mean). -/
theorem c8_amended (today : Ymd) (daily : List (Chars × Int)) :
    (aggregateDailyByWeek today daily).length =
      (dedupFirst ((validDailyPoints (toDayNum today - 1) daily).map
        (fun p => weekKeyOf (toDayNum today - 1) p.1))).length ∧
    ∀ pt ∈ aggregateDailyByWeek today daily,
      weekPricesOf (toDayNum today - 1) daily (pt.weekStart, pt.weekEnd) ≠ [] ∧
      pt.price = pyTruncDiv
        (weekPricesOf (toDayNum today - 1) daily (pt.weekStart, pt.weekEnd)).sum
        (weekPricesOf (toDayNum today - 1) daily (pt.weekStart, pt.weekEnd)).length := by
  by_cases hd : daily = []
  · subst hd
    constructor
    · rfl
    · intro pt hpt
      exact absurd hpt (by simp [aggregateDailyByWeek])
  · by_cases hv : validDailyPoints (toDayNum today - 1) daily = []
    · constructor
      · unfold aggregateDailyByWeek
        rw [if_neg hd, if_pos hv, hv]
        rfl
      · intro pt hpt
        unfold aggregateDailyByWeek at hpt
        rw [if_neg hd, if_pos hv] at hpt
        exact absurd hpt (by simp)
    · have hfacts := sorted_groups_facts weekKeyLe
        ((validDailyPoints (toDayNum today - 1) daily).map
          (fun p => (weekKeyOf (toDayNum today - 1) p.1, p.2)))
      have hout : aggregateDailyByWeek today daily =
          (sortBy weekKeyLe (groupPairs ((validDailyPoints (toDayNum today - 1) daily).map
            (fun p => (weekKeyOf (toDayNum today - 1) p.1, p.2))))).filterMap weekPointOf := by
        unfold aggregateDailyByWeek
        rw [if_neg hd, if_neg hv]
      constructor
      · rw [hout]
        rw [filterMap_all_some_length _ _ (fun g hg => by
          obtain ⟨_, hne, _⟩ := hfacts g hg
          unfold weekPointOf
          cases hcs : g.2 with
          | nil => exact absurd hcs hne
          | cons q qs => simp)]
        rw [length_sortBy, groupPairs_eq]
        unfold groupSpec
        rw [List.length_map, List.map_map]
        rfl
      · intro pt hpt
        rw [hout, List.mem_filterMap] at hpt
        obtain ⟨g, hg, hsome⟩ := hpt
        obtain ⟨hlk, hne, _⟩ := hfacts g hg
        unfold weekPointOf at hsome
        cases hcs : g.2 with
        | nil => exact absurd hcs hne
        | cons q qs =>
          rw [hcs] at hsome
          simp only [Option.some.injEq] at hsome
          have hkey : (pt.weekStart, pt.weekEnd) = g.1 := by
            rw [← hsome]
          have hprices : weekPricesOf (toDayNum today - 1) daily (pt.weekStart, pt.weekEnd) =
              q :: qs := by
            unfold weekPricesOf
            rw [hkey, ← lookupAll_week, ← hlk, hcs]
          refine ⟨by rw [hprices]; simp, ?_⟩
          rw [hprices, ← hsome]

/-- Witness for C8 (amended): a 14-day one-price-per-day series spanning
exactly two ISO weeks (Mon 2024-12-30 .. Sun 2025-01-12, prices 100..113,
today 2025-01-13) yields exactly 2 WeeklyPoints, each the truncated mean of
its 7 values (721/7 = 103 and 770/7 = 110, both exact). -/
theorem c8_witness :
    aggregateDailyByWeek ⟨2025, 1, 13⟩
        [(cs ("2024-12-30"), 100), (cs ("2024-12-31"), 101), (cs ("2025-01-01"), 102),
         (cs ("2025-01-02"), 103), (cs ("2025-01-03"), 104), (cs ("2025-01-04"), 105),
         (cs ("2025-01-05"), 106), (cs ("2025-01-06"), 107), (cs ("2025-01-07"), 108),
         (cs ("2025-01-08"), 109), (cs ("2025-01-09"), 110), (cs ("2025-01-10"), 111),
         (cs ("2025-01-11"), 112), (cs ("2025-01-12"), 113)] =
      [⟨739250, 739256, 103⟩, ⟨739257, 739263, 110⟩] ∧
    (weekPricesOf (toDayNum ⟨2025, 1, 13⟩ - 1)
        [(cs ("2024-12-30"), 100), (cs ("2024-12-31"), 101), (cs ("2025-01-01"), 102),
         (cs ("2025-01-02"), 103), (cs ("2025-01-03"), 104), (cs ("2025-01-04"), 105),
         (cs ("2025-01-05"), 106), (cs ("2025-01-06"), 107), (cs ("2025-01-07"), 108),
         (cs ("2025-01-08"), 109), (cs ("2025-01-09"), 110), (cs ("2025-01-10"), 111),
         (cs ("2025-01-11"), 112), (cs ("2025-01-12"), 113)]
        ((WPoint.mk 739250 739256 103).weekStart, (WPoint.mk 739250 739256 103).weekEnd) ≠ [] ∧
      (WPoint.mk 739250 739256 103).price = pyTruncDiv
        (weekPricesOf (toDayNum ⟨2025, 1, 13⟩ - 1)
          [(cs ("2024-12-30"), 100), (cs ("2024-12-31"), 101), (cs ("2025-01-01"), 102),
           (cs ("2025-01-02"), 103), (cs ("2025-01-03"), 104), (cs ("2025-01-04"), 105),
           (cs ("2025-01-05"), 106), (cs ("2025-01-06"), 107), (cs ("2025-01-07"), 108),
           (cs ("2025-01-08"), 109), (cs ("2025-01-09"), 110), (cs ("2025-01-10"), 111),
           (cs ("2025-01-11"), 112), (cs ("2025-01-12"), 113)]
          ((WPoint.mk 739250 739256 103).weekStart, (WPoint.mk 739250 739256 103).weekEnd)).sum
        (weekPricesOf (toDayNum ⟨2025, 1, 13⟩ - 1)
          [(cs ("2024-12-30"), 100), (cs ("2024-12-31"), 101), (cs ("2025-01-01"), 102),
           (cs ("2025-01-02"), 103), (cs ("2025-01-03"), 104), (cs ("2025-01-04"), 105),
           (cs ("2025-01-05"), 106), (cs ("2025-01-06"), 107), (cs ("2025-01-07"), 108),
           (cs ("2025-01-08"), 109), (cs ("2025-01-09"), 110), (cs ("2025-01-10"), 111),
           (cs ("2025-01-11"), 112), (cs ("2025-01-12"), 113)]
          ((WPoint.mk 739250 739256 103).weekStart,
            (WPoint.mk 739250 739256 103).weekEnd)).length) :=
  ⟨by decide,
    (c8_amended ⟨2025, 1, 13⟩
        [(cs ("2024-12-30"), 100), (cs ("2024-12-31"), 101), (cs ("2025-01-01"), 102),
         (cs ("2025-01-02"), 103), (cs ("2025-01-03"), 104), (cs ("2025-01-04"), 105),
         (cs ("2025-01-05"), 106), (cs ("2025-01-06"), 107), (cs ("2025-01-07"), 108),
         (cs ("2025-01-08"), 109), (cs ("2025-01-09"), 110), (cs ("2025-01-10"), 111),
         (cs ("2025-01-11"), 112), (cs ("2025-01-12"), 113)]).2
      (WPoint.mk 739250 739256 103) (by decide)⟩

/-- Witness for C4 (amended) at the concrete two-item 서울 scenario. -/
theorem c4_witness :
    selectBestItem (cs ("서울"))
        [{ countyname := some (cs ("서울")), price := some (cs ("100")), regday := some (cs ("10/10")) },
         { countyname := some (cs ("서울")), price := some (cs ("200")), regday := some (cs ("10/11")) }] =
      (match ([{ countyname := some (cs ("서울")), price := some (cs ("100")), regday := some (cs ("10/10")) },
          { countyname := some (cs ("서울")), price := some (cs ("200")), regday := some (cs ("10/11")) }].filter
            (passesRegionSingle (cs ("서울")))).find? (fun it => itemPrioritySingle it == 1) with
       | some it => some it
       | none => ([{ countyname := some (cs ("서울")), price := some (cs ("100")), regday := some (cs ("10/10")) },
          { countyname := some (cs ("서울")), price := some (cs ("200")), regday := some (cs ("10/11")) }].filter
            (passesRegionSingle (cs ("서울")))).head?) ∧
    (selectBestItem (cs ("서울"))
        [{ countyname := some (cs ("서울")), price := some (cs ("100")), regday := some (cs ("10/10")) },
         { countyname := some (cs ("서울")), price := some (cs ("200")), regday := some (cs ("10/11")) }] = none ↔
      [{ countyname := some (cs ("서울")), price := some (cs ("100")), regday := some (cs ("10/10")) },
       { countyname := some (cs ("서울")), price := some (cs ("200")), regday := some (cs ("10/11")) }].filter
          (passesRegionSingle (cs ("서울"))) = []) :=
  c4_amended (cs ("서울"))
    [{ countyname := some (cs ("서울")), price := some (cs ("100")), regday := some (cs ("10/10")) },
     { countyname := some (cs ("서울")), price := some (cs ("200")), regday := some (cs ("10/11")) }]
